import Mathlib

set_option maxRecDepth 8000

/-!
# Verification of the Sales Snapshot aggregation pipeline

A shallow embedding of the non-UI core of `src/App.tsx`: cell normalization
(`parseNumber`, `tryParseDate`), column detection (`detectDateColumn`,
`detectMetricColumns`), daily aggregation and summary building (`aggregate`),
and signal generation (`buildSignals`).

Modelling conventions:
* JavaScript numbers are modelled as exact rationals (`ℚ`); the pipeline's
  arithmetic (sums, divisions, comparisons) is embedded literally.
* JavaScript strings are modelled as `String` and manipulated through their
  character lists, since the relevant operations (trim, toLowerCase, regex
  character classes, `includes`) are all per-character on these inputs.
* The host primitives `Number.parseFloat` and `new Date(string)` (together
  with `toISOString().slice(0, 10)`) are modelled by `jsParseFloat` and
  `jsDateParse`, restricted to the input shapes this app feeds them, in a
  UTC environment. `jsDateParse` accepts the numeric triple date forms
  (ISO `Y-M-D` with a four-digit year, and US `M-D-Y` / `M/D/Y`) with years
  1000–9999; everything else is treated as an invalid date, and parses that
  would produce a non-finite number are folded into `none`.
-/

namespace SalesSnapshot

/-- Characters matched by the JavaScript `\s` regex class (the subset that can
occur in the app's inputs; the exotic Unicode space code points are included
for faithfulness of `trim` and the `[$,\s]` stripping). -/
def isJsWhitespace (c : Char) : Bool :=
  c = ' ' || c = '\t' || c = '\n' || c = '\r' || c = '\x0b' || c = '\x0c' ||
  c = '\u00A0' || c = '\u1680' || ('\u2000' ≤ c && c ≤ '\u200A') ||
  c = '\u2028' || c = '\u2029' || c = '\u202F' || c = '\u205F' || c = '\u3000' || c = '\uFEFF'

/-- `String.prototype.trim`: strip whitespace from both ends. -/
def trimChars (l : List Char) : List Char :=
  ((l.dropWhile isJsWhitespace).reverse.dropWhile isJsWhitespace).reverse

/-- Does `l` start with `pat`? (helper for substring search). -/
def startsWith : List Char → List Char → Bool
  | _, [] => true
  | [], _ :: _ => false
  | c :: cs, p :: ps => c = p && startsWith cs ps

/-- `String.prototype.includes`: `containsSub l pat` is true iff `pat` occurs
as a contiguous substring of `l`. -/
def containsSub : List Char → List Char → Bool
  | [], pat => pat.isEmpty
  | c :: cs, pat => startsWith (c :: cs) pat || containsSub cs pat

/-- Numeric value of a digit run (most significant first). -/
def digitsToNat (l : List Char) : Nat :=
  l.foldl (fun a c => 10 * a + (c.toNat - 48)) 0

/-- Split a character list into the leading run of decimal digits and the rest. -/
def takeDigits (l : List Char) : List Char × List Char :=
  (l.takeWhile Char.isDigit, l.dropWhile Char.isDigit)

/-- The optional exponent suffix accepted by `parseFloat` (`e`/`E`, optional
sign, digits); a malformed exponent is ignored, as `parseFloat` takes the
longest valid literal prefix. -/
def parseExponent (l : List Char) : Int :=
  match l with
  | [] => 0
  | c :: rest =>
    if c = 'e' || c = 'E' then
      match rest with
      | '+' :: r => (if (takeDigits r).1.isEmpty then 0 else (digitsToNat (takeDigits r).1 : Int))
      | '-' :: r => (if (takeDigits r).1.isEmpty then 0 else -(digitsToNat (takeDigits r).1 : Int))
      | r => (if (takeDigits r).1.isEmpty then 0 else (digitsToNat (takeDigits r).1 : Int))
    else 0

/-- Scale a rational by a power of ten (the exponent part of a float literal). -/
def applyExp (q : ℚ) (e : Int) : ℚ :=
  if 0 ≤ e then q * (10 : ℚ) ^ e.toNat else q / (10 : ℚ) ^ (-e).toNat

/-- Models `Number.parseFloat` followed by the `Number.isFinite` guard of
`parseNumber`: the longest valid decimal literal prefix is parsed exactly;
no parsable prefix, or an `Infinity` literal (non-finite), yields `none`. -/
def jsParseFloat (l : List Char) : Option ℚ :=
  let l1 := l.dropWhile isJsWhitespace
  let sgn : ℚ := match l1 with | '-' :: _ => -1 | _ => 1
  let l2 : List Char := match l1 with | '-' :: r => r | '+' :: r => r | r => r
  if startsWith l2 "Infinity".data then none
  else
    let ip := (takeDigits l2).1
    let r1 := (takeDigits l2).2
    match r1 with
    | '.' :: r2 =>
      let fp := (takeDigits r2).1
      let r3 := (takeDigits r2).2
      if ip.isEmpty && fp.isEmpty then none
      else some (sgn * applyExp ((digitsToNat ip : ℚ) + (digitsToNat fp : ℚ) / (10 : ℚ) ^ fp.length)
        (parseExponent r3))
    | _ =>
      if ip.isEmpty then none
      else some (sgn * applyExp (digitsToNat ip : ℚ) (parseExponent r1))

/-- `parseNumber` from `App.tsx`: strips `[$,\s]`, then `[()]`, then `%`, then
non-breaking spaces, and parses the result as a float; empty, undefined or
unparseable cells yield 0. `undefined` is modelled as `none`. -/
def parseNumber (raw : Option String) : ℚ :=
  match raw with
  | none => 0
  | some s =>
    let value := trimChars s.data
    if value.isEmpty then 0
    else
      let n1 := value.filter (fun c => !(c = '$' || c = ',' || isJsWhitespace c))
      let n2 := n1.filter (fun c => !(c = '(' || c = ')'))
      let n3 := n2.filter (fun c => !(c = '%'))
      let n4 := n3.filter (fun c => !(c = '\u00A0'))
      match jsParseFloat n4 with
      | some q => q
      | none => 0

/-- A calendar date (year, month, day). -/
structure Ymd where
  y : Nat
  m : Nat
  d : Nat
deriving DecidableEq

/-- Gregorian leap year test. -/
def isLeap (y : Nat) : Bool :=
  y % 4 = 0 && (!(y % 100 = 0) || y % 400 = 0)

/-- Length of a month. -/
def daysInMonth (y m : Nat) : Nat :=
  match m with
  | 2 => if isLeap y then 29 else 28
  | 4 => 30
  | 6 => 30
  | 9 => 30
  | 11 => 30
  | _ => 31

/-- A calendar date the modelled host date parser accepts: years 1000–9999
(so the ISO form is uniformly ten characters), months 1–12, days within the
month. -/
def validYmd (x : Ymd) : Bool :=
  1000 ≤ x.y && x.y ≤ 9999 && 1 ≤ x.m && x.m ≤ 12 && 1 ≤ x.d && x.d ≤ daysInMonth x.y x.m

/-- Split on the date separators `-` and `/`. -/
def splitFields : List Char → List (List Char)
  | [] => [[]]
  | c :: cs =>
    if c = '-' || c = '/' then [] :: splitFields cs
    else
      match splitFields cs with
      | f :: fs => (c :: f) :: fs
      | [] => [[c]]

/-- Is this a nonempty run of decimal digits? -/
def digitsOnly (l : List Char) : Bool :=
  !l.isEmpty && l.all Char.isDigit

/-- Assemble three numeric date fields: `Y-M-D` when the first field is ≥ 1000,
the US `M-D-Y` order otherwise. -/
def ymdOfFields (a b c : Nat) : Ymd :=
  if 1000 ≤ a then ⟨a, b, c⟩ else ⟨c, a, b⟩

/-- Models `new Date(string)` (followed by the UTC calendar-date truncation of
`toISOString().slice(0, 10)`): three numeric fields separated by `-` or `/`;
out-of-range components are an invalid date (`none`). -/
def jsDateParse (l : List Char) : Option Ymd :=
  match splitFields l with
  | [f1, f2, f3] =>
    if digitsOnly f1 && digitsOnly f2 && digitsOnly f3 then
      if validYmd (ymdOfFields (digitsToNat f1) (digitsToNat f2) (digitsToNat f3)) then
        some (ymdOfFields (digitsToNat f1) (digitsToNat f2) (digitsToNat f3))
      else none
    else none
  | _ => none

/-- The decimal digit characters. -/
def digitChar (n : Nat) : Char :=
  match n with
  | 0 => '0' | 1 => '1' | 2 => '2' | 3 => '3' | 4 => '4'
  | 5 => '5' | 6 => '6' | 7 => '7' | 8 => '8' | _ => '9'

/-- Four-digit zero-padded decimal rendering (years). -/
def pad4 (n : Nat) : List Char :=
  [digitChar (n / 1000 % 10), digitChar (n / 100 % 10), digitChar (n / 10 % 10), digitChar (n % 10)]

/-- Two-digit zero-padded decimal rendering (months, days). -/
def pad2 (n : Nat) : List Char :=
  [digitChar (n / 10 % 10), digitChar (n % 10)]

/-- The ten characters of `toISOString().slice(0, 10)`. -/
def toISOChars (x : Ymd) : List Char :=
  pad4 x.y ++ '-' :: (pad2 x.m ++ '-' :: pad2 x.d)

/-- `YYYY-MM-DD` rendering of a date. -/
def toISO (x : Ymd) : String :=
  String.mk (toISOChars x)

/-- `tryParseDate` from `App.tsx`: trims the cell, normalizes `/` to `-`, asks
the host date parser, and on failure retries on the substring of the original
trimmed value before the first whitespace or `T` character; a success is
rendered as the ISO calendar date. `undefined` is modelled as `none`. -/
def tryParseDate (raw : Option String) : Option String :=
  match raw with
  | none => none
  | some r =>
    let value := trimChars r.data
    if value.isEmpty then none
    else
      let replacements := value.map (fun c => if c = '/' then '-' else c)
      match jsDateParse replacements with
      | some x => some (toISO x)
      | none =>
        let parts := value.takeWhile (fun c => !(isJsWhitespace c || c = 'T'))
        (jsDateParse parts).map toISO

/-- A raw CSV record: column name to cell text, in header order. -/
abbrev Row := List (String × String)

/-- `row[header]`, which may be `undefined`. -/
def lookupCell (r : Row) (h : String) : Option String :=
  r.lookup h

/-- `row[header] ?? ''`. -/
def cellOrEmpty (r : Row) (h : String) : String :=
  (lookupCell r h).getD ""

/-- The `numberish` regex `/[-\d.,$()%]/` of `App.tsx`, as a character test. -/
def numberish (c : Char) : Bool :=
  c = '-' || c.isDigit || c = '.' || c = ',' || c = '$' || c = '(' || c = ')' || c = '%'

/-- `numberish.test(cell)`: does any character match? -/
def cellNumberish (s : String) : Bool :=
  s.data.any numberish

/-- Number of records whose cell in column `h` parses as a date
(the per-column score of `detectDateColumn`). -/
def dateHits (rows : List Row) (h : String) : Nat :=
  rows.countP (fun r => (tryParseDate (lookupCell r h)).isSome)

/-- `detectDateColumn` from `App.tsx`: the column with strictly the most
date-parsable cells, earlier columns winning ties; `none` when every column
scores zero. -/
def detectDateColumn (rows : List Row) (headers : List String) : Option String :=
  (headers.foldl (fun best h =>
    let n := dateHits rows h
    if n = 0 then best
    else
      match best with
      | none => some (h, n)
      | some (b, bn) => if bn < n then some (h, n) else some (b, bn)) none).map Prod.fst

/-- The five metric roles. -/
inductive MetricKey
  | gross
  | net
  | discounts
  | tips
  | transactions
deriving DecidableEq

/-- The `metricHints` table of `App.tsx`. -/
def metricHints : MetricKey → List String
  | .gross => ["gross", "total sales", "total gross", "revenue"]
  | .net => ["net", "total net", "net sales"]
  | .discounts => ["discount", "comp", "promo"]
  | .tips => ["tip", "gratuity"]
  | .transactions => ["transactions", "orders", "receipts", "count"]

/-- Number of hint substrings contained (case-insensitively) in a column name. -/
def hintScore (hints : List String) (h : String) : Nat :=
  hints.countP (fun hint => containsSub (h.data.map Char.toLower) hint.data)

/-- A column is eligible when at least one record's cell looks numeric. -/
def eligibleCol (rows : List Row) (h : String) : Bool :=
  rows.any (fun r => cellNumberish (cellOrEmpty r h))

/-- Number of records whose cell in column `h` looks numeric. -/
def density (rows : List Row) (h : String) : Nat :=
  rows.countP (fun r => cellNumberish (cellOrEmpty r h))

/-- The weighted score `score * 2 + numericDensity` of `detectMetricColumns`. -/
def weightedScore (rows : List Row) (hints : List String) (h : String) : Nat :=
  hintScore hints h * 2 + density rows h

/-- One step of the inner loop of `detectMetricColumns`: skip ineligible
columns, skip zero-hint columns once a candidate exists, otherwise keep the
strictly better weighted score. -/
def metricStep (rows : List Row) (hints : List String) (best : Option (String × Nat))
    (h : String) : Option (String × Nat) :=
  if !eligibleCol rows h then best
  else
    let score := hintScore hints h
    if score = 0 && best.isSome then best
    else
      let w := score * 2 + density rows h
      match best with
      | none => some (h, w)
      | some p => if p.2 < w then some (h, w) else some p

/-- The inner loop of `detectMetricColumns` for one metric: scan the still
available columns in order with `metricStep`. Returns the chosen column with
its weighted score. -/
def selectForMetric (rows : List Row) (hints : List String) (avail : List String) :
    Option (String × Nat) :=
  avail.foldl (metricStep rows hints) none

/-- The column selection for the five metric roles. -/
structure Selections where
  gross : Option String
  net : Option String
  discounts : Option String
  tips : Option String
  transactions : Option String
deriving DecidableEq

/-- Remove the chosen column (if any) from the available pool
(`available.delete(best.header)`). -/
def availAfter (avail : List String) (p : Option (String × Nat)) : List String :=
  match p with
  | some (h, _) => avail.erase h
  | none => avail

/-- First-occurrence deduplication with a seen-accumulator (the iteration
order of a JS `Set`). -/
def dedupKeep : List String → List String → List String
  | _, [] => []
  | seen, h :: t => if h ∈ seen then dedupKeep seen t else h :: dedupKeep (h :: seen) t

/-- The initial available pool: `new Set(headers)` (insertion order,
duplicates collapsed). -/
def avail0 (headers : List String) : List String :=
  dedupKeep [] headers

/-- Stage 1 of `detectMetricColumns`: the `gross` pick. -/
def pick1 (rows : List Row) (headers : List String) : Option (String × Nat) :=
  selectForMetric rows (metricHints .gross) (avail0 headers)

/-- The pool after the `gross` pick. -/
def avail1 (rows : List Row) (headers : List String) : List String :=
  availAfter (avail0 headers) (pick1 rows headers)

/-- Stage 2: the `net` pick. -/
def pick2 (rows : List Row) (headers : List String) : Option (String × Nat) :=
  selectForMetric rows (metricHints .net) (avail1 rows headers)

/-- The pool after the `net` pick. -/
def avail2 (rows : List Row) (headers : List String) : List String :=
  availAfter (avail1 rows headers) (pick2 rows headers)

/-- Stage 3: the `discounts` pick. -/
def pick3 (rows : List Row) (headers : List String) : Option (String × Nat) :=
  selectForMetric rows (metricHints .discounts) (avail2 rows headers)

/-- The pool after the `discounts` pick. -/
def avail3 (rows : List Row) (headers : List String) : List String :=
  availAfter (avail2 rows headers) (pick3 rows headers)

/-- Stage 4: the `tips` pick. -/
def pick4 (rows : List Row) (headers : List String) : Option (String × Nat) :=
  selectForMetric rows (metricHints .tips) (avail3 rows headers)

/-- The pool after the `tips` pick. -/
def avail4 (rows : List Row) (headers : List String) : List String :=
  availAfter (avail3 rows headers) (pick4 rows headers)

/-- Stage 5: the `transactions` pick. -/
def pick5 (rows : List Row) (headers : List String) : Option (String × Nat) :=
  selectForMetric rows (metricHints .transactions) (avail4 rows headers)

/-- The pool after the `transactions` pick. -/
def avail5 (rows : List Row) (headers : List String) : List String :=
  availAfter (avail4 rows headers) (pick5 rows headers)

/-- JS truthiness of a possibly-absent column name: `!x` holds for
`undefined`, `null` and the empty string, so a selection counts as present
only when it is a nonempty name. -/
def truthy (o : Option String) : Bool :=
  match o with
  | none => false
  | some s => !s.data.isEmpty

/-- The `transactions` column: the stage-5 pick when truthy, or else the first
remaining column whose numeric density exceeds a third of the record count;
`if (!selections.transactions)` also fires on a stage-5 pick named `""`, and
when the fallback scan finds nothing that falsy pick is what remains. -/
def txnColumn (rows : List Row) (headers : List String) : Option String :=
  match pick5 rows headers with
  | some (h, _) =>
    if h.data.isEmpty then
      match (avail5 rows headers).find? (fun c => rows.length < 3 * density rows c) with
      | some f => some f
      | none => some h
    else some h
  | none => (avail5 rows headers).find? (fun c => rows.length < 3 * density rows c)

/-- `detectMetricColumns` from `App.tsx`: metrics claim columns in the fixed
order gross, net, discounts, tips, transactions, each selection removing the
column from the available pool; if `transactions` is still unassigned, the
density fallback `txnColumn` applies. -/
def detectMetricColumns (rows : List Row) (headers : List String) : Selections :=
  { gross := (pick1 rows headers).map Prod.fst
    net := (pick2 rows headers).map Prod.fst
    discounts := (pick3 rows headers).map Prod.fst
    tips := (pick4 rows headers).map Prod.fst
    transactions := txnColumn rows headers }

/-- One per-day bucket of summed metrics. -/
structure DailyAggregate where
  dateISO : String
  gross : ℚ
  net : ℚ
  discounts : ℚ
  tips : ℚ
  transactions : ℚ
deriving DecidableEq

/-- A fresh bucket for a date, all accumulators zero. -/
def emptyAgg (iso : String) : DailyAggregate :=
  ⟨iso, 0, 0, 0, 0, 0⟩

/-- `entry[metric] += parseNumber(row[column])`, skipped when the metric has no
selected column; `if (!column) return` also skips a column named `""`. -/
def addMetric (sel : Option String) (r : Row) (v : ℚ) : ℚ :=
  match sel with
  | none => v
  | some col => if col.data.isEmpty then v else v + parseNumber (lookupCell r col)

/-- Add one record's cells to a day's bucket, metric by metric. -/
def addMetrics (sel : Selections) (r : Row) (e : DailyAggregate) : DailyAggregate :=
  { e with
    gross := addMetric sel.gross r e.gross
    net := addMetric sel.net r e.net
    discounts := addMetric sel.discounts r e.discounts
    tips := addMetric sel.tips r e.tips
    transactions := addMetric sel.transactions r e.transactions }

/-- `bucket.set(dateISO, entry)` after `bucket.get(dateISO) ?? fresh`: update
the existing bucket for the date in place, or append a new one (a JS `Map`
iterates in insertion order). -/
def updateBucket (sel : Selections) (bucket : List DailyAggregate) (r : Row) (iso : String) :
    List DailyAggregate :=
  if bucket.any (fun e => e.dateISO = iso) then
    bucket.map (fun e => if e.dateISO = iso then addMetrics sel r e else e)
  else
    bucket ++ [addMetrics sel r (emptyAgg iso)]

/-- One record of the aggregation loop: a record whose date cell does not
resolve is silently dropped; otherwise it is bucketed by resolved ISO date. -/
def bucketStep (dateColumn : String) (sel : Selections) (bucket : List DailyAggregate)
    (r : Row) : List DailyAggregate :=
  match tryParseDate (lookupCell r dateColumn) with
  | none => bucket
  | some iso => updateBucket sel bucket r iso

/-- The aggregation loop of `aggregate` over all records. -/
def buildBucket (rows : List Row) (dateColumn : String) (sel : Selections) :
    List DailyAggregate :=
  rows.foldl (bucketStep dateColumn sel) []

/-- Strict lexicographic order on character lists (by code point), the order
`localeCompare` induces on the ASCII date strings compared here. -/
def charListLt : List Char → List Char → Bool
  | _, [] => false
  | [], _ :: _ => true
  | a :: as, b :: bs => if a < b then true else if a = b then charListLt as bs else false

/-- The comparator `(a, b) => a.dateISO.localeCompare(b.dateISO)` as the
non-strict sort relation: `a` may precede `b` unless `b.dateISO` is strictly
smaller. -/
def dailyLe (a b : DailyAggregate) : Prop :=
  charListLt b.dateISO.data a.dateISO.data = false

instance : DecidableRel dailyLe := fun a b => by
  unfold dailyLe
  infer_instance

/-- `daily.sort(...)` on the bucket values. -/
def sortDaily (l : List DailyAggregate) : List DailyAggregate :=
  l.insertionSort dailyLe

/-- Leap years in `[1..y]` (as an integer to avoid truncated subtraction). -/
def leaps (y : Nat) : Int :=
  ((y / 4 : Nat) : Int) - ((y / 100 : Nat) : Int) + ((y / 400 : Nat) : Int)

/-- Days in year `y` before month `m`. -/
def daysBeforeMonth (y m : Nat) : Nat :=
  (match m with
   | 1 => 0 | 2 => 31 | 3 => 59 | 4 => 90 | 5 => 120 | 6 => 151
   | 7 => 181 | 8 => 212 | 9 => 243 | 10 => 273 | 11 => 304 | _ => 334)
  + (if 3 ≤ m && isLeap y then 1 else 0)

/-- Day count of a date from the calendar epoch (proleptic Gregorian,
day 0 = January 1 of year 1); `new Date(iso).getTime()` is an affine image of
this, and only differences of it reach the output. -/
def dayNumber (x : Ymd) : Int :=
  365 * ((x.y - 1 : Nat) : Int) + leaps (x.y - 1) + ((daysBeforeMonth x.y x.m : Nat) : Int) +
    ((x.d - 1 : Nat) : Int)

/-- Numeric value of a digit character. -/
def digitValue (c : Char) : Nat :=
  c.toNat - 48

/-- Day number read back from a ten-character ISO date string (how
`new Date(daily[i].dateISO)` re-parses the rendered dates; other shapes
cannot occur there and are mapped to 0). -/
def isoDayNumber (s : String) : Int :=
  match s.data with
  | [a, b, c, d, s1, e, f, s2, g, h] =>
    if s1 = '-' ∧ s2 = '-' then
      dayNumber ⟨1000 * digitValue a + 100 * digitValue b + 10 * digitValue c + digitValue d,
        10 * digitValue e + digitValue f, 10 * digitValue g + digitValue h⟩
    else 0
  | _ => 0

/-- `new Date(iso).getTime()` up to the constant epoch offset (which cancels
in the difference taken by `aggregate`). -/
def epochMs (s : String) : Int :=
  86400000 * isoDayNumber s

/-- `Math.round`: round half towards positive infinity (`round` on `ℚ` is
`⌊x + 1/2⌋`, the same function). -/
def jsRound (q : ℚ) : Int :=
  round q

/-- A record of the five metric totals or rates. -/
structure Metrics where
  gross : ℚ
  net : ℚ
  discounts : ℚ
  tips : ℚ
  transactions : ℚ
deriving DecidableEq

/-- The three guarded ratios. -/
structure Ratios where
  discountRate : ℚ
  netPerTransaction : ℚ
  tipsPerTransaction : ℚ
deriving DecidableEq

/-- The summary structure returned to the UI. -/
structure Summary where
  operatingDays : Nat
  calendarDays : Int
  totals : Metrics
  perOperatingDay : Metrics
  perCalendarDay : Metrics
  ratios : Ratios
  signals : List String
deriving DecidableEq

/-- The successful result of `aggregate`. -/
structure AggResult where
  daily : List DailyAggregate
  summary : Summary
deriving DecidableEq

/-- The totals reduce of `aggregate`: element-wise sum over the daily list. -/
def sumDaily (daily : List DailyAggregate) : Metrics :=
  daily.foldl (fun acc cur =>
    { gross := acc.gross + cur.gross
      net := acc.net + cur.net
      discounts := acc.discounts + cur.discounts
      tips := acc.tips + cur.tips
      transactions := acc.transactions + cur.transactions })
    ⟨0, 0, 0, 0, 0⟩

/-- Divide each total by a day count. -/
def perDay (t : Metrics) (n : ℚ) : Metrics :=
  ⟨t.gross / n, t.net / n, t.discounts / n, t.tips / n, t.transactions / n⟩

/-- The guarded ratios of `aggregate` (`x ? a / x : 0` on numbers tests
`x ≠ 0`). -/
def mkRatios (t : Metrics) : Ratios :=
  { discountRate := if t.gross ≠ 0 then t.discounts / t.gross else 0
    netPerTransaction := if t.transactions ≠ 0 then t.net / t.transactions else 0
    tipsPerTransaction := if t.transactions ≠ 0 then t.tips / t.transactions else 0 }

/-- `buildSignals` from `App.tsx`: the sequential `messages.push` chain, with
every threshold and message reproduced literally. -/
def buildSignals (operatingDays : Nat) (calendarDays : Int) (perOperatingDay : Metrics)
    (ratios : Ratios) : List String :=
  let messages : List String := []
  let messages := if (operatingDays : Int) < calendarDays then
      let o := toString operatingDays
      let c := toString calendarDays
      messages ++ [s!"Operating-day normalization matters: {o} active days across {c} calendar days. Totals alone understate per-day performance."]
    else
      messages ++ ["Performance is normalized: every calendar day shows activity."]
  let grossPerDay := perOperatingDay.gross
  let tickets := ratios.netPerTransaction
  let txnPace := perOperatingDay.transactions
  let messages := if grossPerDay ≠ 0 ∧ tickets ≠ 0 ∧ txnPace ≠ 0 then
      if tickets * (3 / 2) > txnPace then
        messages ++ ["Revenue is driven more by ticket size than transaction volume; protect average check to maintain momentum."]
      else if txnPace * (3 / 2) > tickets then
        messages ++ ["Revenue is volume-led; keep an eye on traffic levers and service speed."]
      else
        messages ++ ["Ticket size and volume are balanced drivers of revenue."]
    else messages
  let messages := if ratios.discountRate ≥ 15 / 100 then
      messages ++ ["Discount pressure is material (discounts over 15% of gross). Ensure promos are intentional."]
    else if ratios.discountRate > 5 / 100 then
      messages ++ ["Moderate discounting detected; track whether promos are lifting ticket size or just eroding margin."]
    else
      messages ++ ["Discount impact is light; margin preservation is strong."]
  let messages := if ratios.tipsPerTransaction < 1 then
      messages ++ ["Tips per transaction are soft; consider service quality or customer mix changes."]
    else if ratios.tipsPerTransaction > 5 / 2 then
      messages ++ ["Tips per transaction are strong; service experience may be a differentiator."]
    else
      messages ++ ["Tips per transaction are steady; no major behavioral signal detected."]
  messages

/-- Build the `daily`/`summary` pair from the nonempty sorted daily list
(the tail of `aggregate` after all error checks). -/
def mkResult (d0 : DailyAggregate) (rest : List DailyAggregate) : AggResult :=
  let daily := d0 :: rest
  let totals := sumDaily daily
  let operatingDays := daily.length
  let lastAgg := daily.getLast (List.cons_ne_nil d0 rest)
  let calendarDays :=
    jsRound (((epochMs lastAgg.dateISO - epochMs d0.dateISO : Int) : ℚ) / 86400000) + 1
  let perOperatingDay := perDay totals (operatingDays : ℚ)
  let perCalendarDay := perDay totals (calendarDays : ℚ)
  let ratios := mkRatios totals
  let signals := buildSignals operatingDays calendarDays perOperatingDay ratios
  { daily := daily
    summary := {
      operatingDays := operatingDays
      calendarDays := calendarDays
      totals := totals
      perOperatingDay := perOperatingDay
      perCalendarDay := perCalendarDay
      ratios := ratios
      signals := signals } }

/-- The `headers` of `aggregate`: `Object.keys(rows[0])`. -/
def headersOf (rows : List Row) : List String :=
  match rows with
  | [] => []
  | r0 :: _ => r0.map Prod.fst

/-- The `['gross', 'net'].filter((m) => !metricColumns[m])` check: a metric is
missing when its selection is falsy — absent or named `""`. -/
def missingOf (sel : Selections) : List String :=
  (if truthy sel.gross then [] else ["gross"]) ++ (if truthy sel.net then [] else ["net"])

/-- The empty-input error message. -/
def msgEmpty : String :=
  "No rows detected in CSV."

/-- The no-date-column error message. -/
def msgNoDate : String :=
  "Could not find a date column. Please ensure the CSV includes a date column."

/-- The error message for a missing-metrics list. -/
def msgMissing (l : List String) : String :=
  "Missing expected numeric columns: " ++ String.intercalate ", " l

/-- The zero-surviving-records error message. -/
def msgNoRows : String :=
  "No usable dated rows found after parsing." 

/-- `aggregate` from `App.tsx`: the four guarded error exits, then bucketing,
sorting, totals, day counts, rates, ratios and signals; `if (!dateColumn)`
also rejects a detected date column named `""`. -/
def aggregate (rows : List Row) : Except String AggResult :=
  match rows with
  | [] => .error msgEmpty
  | _ :: _ =>
    let headers := headersOf rows
    match detectDateColumn rows headers with
    | none => .error msgNoDate
    | some dateColumn =>
      if dateColumn.data.isEmpty then .error msgNoDate
      else
        let metricColumns := detectMetricColumns rows headers
        match missingOf metricColumns with
        | _ :: _ => .error (msgMissing (missingOf metricColumns))
        | [] =>
          match sortDaily (buildBucket rows dateColumn metricColumns) with
          | [] => .error msgNoRows
          | d0 :: rest => .ok (mkResult d0 rest)

/-! ## Order lemmas for the date-string comparator -/

lemma charListLt_nil_right (a : List Char) : charListLt a [] = false := by
  cases a <;> rfl

lemma charListLt_irrefl (l : List Char) : charListLt l l = false := by
  induction l with
  | nil => rfl
  | cons c cs ih => simp [charListLt, ih]

lemma charListLt_asymm : ∀ {a b : List Char}, charListLt a b = true → charListLt b a = false
  | a, [], h => by rw [charListLt_nil_right] at h; cases h
  | [], _ :: _, _ => rfl
  | a :: as, b :: bs, h => by
    simp only [charListLt] at h ⊢
    rcases lt_trichotomy a b with hab | hab | hab
    · simp [hab, not_lt.mpr hab.le, ne_of_gt hab]
    · subst hab
      simp only [lt_irrefl, if_false, if_pos rfl] at h ⊢
      exact charListLt_asymm h
    · simp [hab, not_lt.mpr hab.le, ne_of_gt hab] at h

lemma charListLt_trans : ∀ {a b c : List Char},
    charListLt a b = true → charListLt b c = true → charListLt a c = true
  | _, b, [], _, h2 => by rw [charListLt_nil_right] at h2; cases h2
  | a, [], _ :: _, h1, _ => by rw [charListLt_nil_right] at h1; cases h1
  | [], _ :: _, _ :: _, _, _ => rfl
  | a :: as, b :: bs, c :: cs, h1, h2 => by
    simp only [charListLt] at h1 h2 ⊢
    rcases lt_trichotomy a b with hab | hab | hab
    · rcases lt_trichotomy b c with hbc | hbc | hbc
      · simp [hab.trans hbc]
      · subst hbc; simp [hab]
      · simp [not_lt.mpr hbc.le, ne_of_gt hbc] at h2
    · subst hab
      rcases lt_trichotomy a c with hbc | hbc | hbc
      · simp [hbc]
      · subst hbc
        simp only [lt_irrefl, if_false, if_pos rfl] at h1 h2 ⊢
        exact charListLt_trans h1 h2
      · simp [not_lt.mpr hbc.le, ne_of_gt hbc] at h2
    · simp [not_lt.mpr hab.le, ne_of_gt hab] at h1

lemma charListLt_connex : ∀ {a b : List Char},
    charListLt a b = false → charListLt b a = false → a = b
  | [], [], _, _ => rfl
  | [], _ :: _, h1, _ => by cases h1
  | _ :: _, [], _, h2 => by cases h2
  | a :: as, b :: bs, h1, h2 => by
    simp only [charListLt] at h1 h2
    rcases lt_trichotomy a b with hab | hab | hab
    · simp [hab] at h1
    · subst hab
      simp only [lt_irrefl, if_false, if_pos rfl] at h1 h2
      rw [charListLt_connex h1 h2]
    · simp [hab] at h2

instance : IsTotal DailyAggregate dailyLe := by
  constructor
  intro a b
  unfold dailyLe
  cases h : charListLt b.dateISO.data a.dateISO.data with
  | false => exact Or.inl rfl
  | true => exact Or.inr (charListLt_asymm h)

instance : IsTrans DailyAggregate dailyLe := by
  constructor
  intro a b c h1 h2
  unfold dailyLe at h1 h2 ⊢
  cases hca : charListLt c.dateISO.data a.dateISO.data with
  | false => rfl
  | true =>
    exfalso
    cases hab : charListLt a.dateISO.data b.dateISO.data with
    | true => simp [charListLt_trans hca hab] at h2
    | false =>
      have := charListLt_connex hab h1
      rw [this] at hca
      simp [hca] at h2

lemma sortDaily_sorted (l : List DailyAggregate) : List.Sorted dailyLe (sortDaily l) :=
  List.sorted_insertionSort dailyLe l

lemma sortDaily_perm (l : List DailyAggregate) : List.Perm (sortDaily l) l :=
  List.perm_insertionSort dailyLe l

/-- Non-strict sortedness plus distinct date keys gives strictly ascending
date strings. -/
lemma sorted_strict {l : List DailyAggregate} (hs : List.Sorted dailyLe l)
    (hn : (l.map DailyAggregate.dateISO).Nodup) :
    l.Pairwise (fun a b => charListLt a.dateISO.data b.dateISO.data = true) := by
  have hne : l.Pairwise (fun a b => a.dateISO ≠ b.dateISO) :=
    (List.pairwise_map.mp hn)
  refine (hs.and hne).imp ?_
  rintro a b ⟨hle, hne'⟩
  cases hab : charListLt a.dateISO.data b.dateISO.data with
  | true => rfl
  | false =>
    have hdata := charListLt_connex hab hle
    exact absurd (String.ext hdata) hne'

/-! ## Decimal rendering lemmas -/

lemma digitChar_lt_iff : ∀ a, a < 10 → ∀ b, b < 10 → ((digitChar a < digitChar b) ↔ a < b) := by
  decide

lemma digitChar_eq_iff : ∀ a, a < 10 → ∀ b, b < 10 → ((digitChar a = digitChar b) ↔ a = b) := by
  decide

lemma digitValue_digitChar : ∀ a, a < 10 → digitValue (digitChar a) = a := by
  decide

lemma charListLt_cons_same (c : Char) (a b : List Char) :
    charListLt (c :: a) (c :: b) = charListLt a b := by
  simp [charListLt]

lemma charListLt_append : ∀ {p q : List Char}, p.length = q.length → ∀ r s,
    charListLt (p ++ r) (q ++ s) =
      (if charListLt p q then true else if p = q then charListLt r s else false)
  | [], [], _, r, s => by simp [charListLt]
  | [], _ :: _, hlen, _, _ => by simp at hlen
  | _ :: _, [], hlen, _, _ => by simp at hlen
  | p :: ps, q :: qs, hlen, r, s => by
    simp only [List.length_cons, Nat.add_right_cancel_iff] at hlen
    by_cases hpq : p < q
    · simp [charListLt, hpq]
    · by_cases hpq2 : p = q
      · subst hpq2
        rw [List.cons_append, List.cons_append, charListLt_cons_same,
          charListLt_append hlen r s, charListLt_cons_same]
        simp [List.cons.injEq]
      · simp [charListLt, hpq, hpq2]

lemma pad4_length (n : Nat) : (pad4 n).length = 4 := rfl

lemma pad2_length (n : Nat) : (pad2 n).length = 2 := rfl

lemma pad4_lt_iff {a b : Nat} (ha : a < 10000) (hb : b < 10000) :
    (charListLt (pad4 a) (pad4 b) = true) ↔ a < b := by
  have d1 : a / 1000 % 10 < 10 := Nat.mod_lt _ (by norm_num)
  have d2 : a / 100 % 10 < 10 := Nat.mod_lt _ (by norm_num)
  have d3 : a / 10 % 10 < 10 := Nat.mod_lt _ (by norm_num)
  have d4 : a % 10 < 10 := Nat.mod_lt _ (by norm_num)
  have e1 : b / 1000 % 10 < 10 := Nat.mod_lt _ (by norm_num)
  have e2 : b / 100 % 10 < 10 := Nat.mod_lt _ (by norm_num)
  have e3 : b / 10 % 10 < 10 := Nat.mod_lt _ (by norm_num)
  have e4 : b % 10 < 10 := Nat.mod_lt _ (by norm_num)
  simp only [pad4, charListLt,
    digitChar_lt_iff _ d1 _ e1, digitChar_eq_iff _ d1 _ e1,
    digitChar_lt_iff _ d2 _ e2, digitChar_eq_iff _ d2 _ e2,
    digitChar_lt_iff _ d3 _ e3, digitChar_eq_iff _ d3 _ e3,
    digitChar_lt_iff _ d4 _ e4, digitChar_eq_iff _ d4 _ e4]
  split_ifs <;> simp <;> omega

lemma pad2_lt_iff {a b : Nat} (ha : a < 100) (hb : b < 100) :
    (charListLt (pad2 a) (pad2 b) = true) ↔ a < b := by
  have d1 : a / 10 % 10 < 10 := Nat.mod_lt _ (by norm_num)
  have d2 : a % 10 < 10 := Nat.mod_lt _ (by norm_num)
  have e1 : b / 10 % 10 < 10 := Nat.mod_lt _ (by norm_num)
  have e2 : b % 10 < 10 := Nat.mod_lt _ (by norm_num)
  simp only [pad2, charListLt,
    digitChar_lt_iff _ d1 _ e1, digitChar_eq_iff _ d1 _ e1,
    digitChar_lt_iff _ d2 _ e2, digitChar_eq_iff _ d2 _ e2]
  split_ifs <;> simp <;> omega

/-! ## Calendar-date order -/

/-- Lexicographic (chronological) order on calendar dates. -/
def ymdLt (x x' : Ymd) : Prop :=
  x.y < x'.y ∨ (x.y = x'.y ∧ (x.m < x'.m ∨ (x.m = x'.m ∧ x.d < x'.d)))

lemma validYmd_unfold {x : Ymd} (h : validYmd x = true) :
    1000 ≤ x.y ∧ x.y ≤ 9999 ∧ 1 ≤ x.m ∧ x.m ≤ 12 ∧ 1 ≤ x.d ∧ x.d ≤ daysInMonth x.y x.m := by
  simpa [validYmd, Bool.and_eq_true, decide_eq_true_iff, and_assoc] using h

lemma daysInMonth_le (y m : Nat) : daysInMonth y m ≤ 31 := by
  unfold daysInMonth
  split <;> first | omega | (split <;> omega)

lemma ymd_trichotomy (x x' : Ymd) : ymdLt x x' ∨ x = x' ∨ ymdLt x' x := by
  rcases x with ⟨y, m, d⟩
  rcases x' with ⟨y', m', d'⟩
  simp only [ymdLt, Ymd.mk.injEq]
  omega

lemma toISOChars_lt {x x' : Ymd} (hx : validYmd x = true) (hx' : validYmd x' = true)
    (h : ymdLt x x') : charListLt (toISOChars x) (toISOChars x') = true := by
  obtain ⟨hy1, hy2, hm1, hm2, hd1, hd2⟩ := validYmd_unfold hx
  obtain ⟨hy1', hy2', hm1', hm2', hd1', hd2'⟩ := validYmd_unfold hx'
  have hdm := daysInMonth_le x.y x.m
  have hdm' := daysInMonth_le x'.y x'.m
  unfold toISOChars
  rw [charListLt_append (by simp [pad4_length])]
  rcases h with hy | ⟨hy, hrest⟩
  · rw [if_pos ((pad4_lt_iff (by omega) (by omega)).mpr hy)]
  · rw [hy, if_neg (by simp [charListLt_irrefl]), if_pos rfl]
    rw [charListLt_cons_same, charListLt_append (by simp [pad2_length])]
    rcases hrest with hm | ⟨hm, hd⟩
    · rw [if_pos ((pad2_lt_iff (by omega) (by omega)).mpr hm)]
    · rw [hm, if_neg (by simp [charListLt_irrefl]), if_pos rfl]
      rw [charListLt_cons_same]
      exact (pad2_lt_iff (by omega) (by omega)).mpr hd

lemma ymdLt_of_toISOChars_lt {x x' : Ymd} (hx : validYmd x = true) (hx' : validYmd x' = true)
    (h : charListLt (toISOChars x) (toISOChars x') = true) : ymdLt x x' := by
  rcases ymd_trichotomy x x' with h1 | h1 | h1
  · exact h1
  · subst h1
    simp [charListLt_irrefl] at h
  · simp [charListLt_asymm (toISOChars_lt hx' hx h1)] at h

lemma isoDayNumber_toISO {x : Ymd} (h : validYmd x = true) :
    isoDayNumber (toISO x) = dayNumber x := by
  obtain ⟨hy1, hy2, hm1, hm2, hd1, hd2⟩ := validYmd_unfold h
  have hdm := daysInMonth_le x.y x.m
  rcases x with ⟨y, m, d⟩
  simp only at hy1 hy2 hm1 hm2 hd1 hd2 hdm
  have e : (toISO ⟨y, m, d⟩).data = toISOChars ⟨y, m, d⟩ := rfl
  simp only [isoDayNumber, e, toISOChars, pad4, pad2, List.cons_append, List.nil_append,
    List.append_nil]
  rw [if_pos (by trivial)]
  rw [digitValue_digitChar _ (Nat.mod_lt _ (by norm_num)),
    digitValue_digitChar _ (Nat.mod_lt _ (by norm_num)),
    digitValue_digitChar _ (Nat.mod_lt _ (by norm_num)),
    digitValue_digitChar _ (Nat.mod_lt _ (by norm_num)),
    digitValue_digitChar _ (Nat.mod_lt _ (by norm_num)),
    digitValue_digitChar _ (Nat.mod_lt _ (by norm_num)),
    digitValue_digitChar _ (Nat.mod_lt _ (by norm_num)),
    digitValue_digitChar _ (Nat.mod_lt _ (by norm_num))]
  have ey : 1000 * (y / 1000 % 10) + 100 * (y / 100 % 10) + 10 * (y / 10 % 10) + y % 10 = y := by
    omega
  have em : 10 * (m / 10 % 10) + m % 10 = m := by omega
  have ed : 10 * (d / 10 % 10) + d % 10 = d := by omega
  rw [ey, em, ed]

/-! ## Day-number monotonicity -/

lemma leaps_succ (y : Nat) : leaps (y + 1) = leaps y + (if isLeap (y + 1) then 1 else 0) := by
  unfold leaps isLeap
  rw [Nat.succ_div, Nat.succ_div, Nat.succ_div]
  simp only [Nat.dvd_iff_mod_eq_zero]
  by_cases h4 : (y + 1) % 4 = 0 <;> by_cases h100 : (y + 1) % 100 = 0 <;>
    by_cases h400 : (y + 1) % 400 = 0 <;>
    simp [h4, h100, h400] <;> omega

lemma leaps_le_succ (y : Nat) : leaps y ≤ leaps (y + 1) := by
  rw [leaps_succ]
  split <;> omega

lemma leaps_mono {a b : Nat} (h : a ≤ b) : leaps a ≤ leaps b := by
  induction b, h using Nat.le_induction with
  | base => exact le_refl _
  | succ n hn ih => exact ih.trans (leaps_le_succ n)

lemma daysBeforeMonth_succ (y : Nat) {m : Nat} (h1 : 1 ≤ m) (h2 : m ≤ 11) :
    daysBeforeMonth y (m + 1) = daysBeforeMonth y m + daysInMonth y m := by
  cases hL : isLeap y <;> interval_cases m <;>
    simp [daysBeforeMonth, daysInMonth, hL]

lemma daysBeforeMonth_mono (y : Nat) {m m' : Nat} (h1 : 1 ≤ m) (hm : m < m') (h2 : m' ≤ 12) :
    daysBeforeMonth y m + daysInMonth y m ≤ daysBeforeMonth y m' := by
  induction m', hm using Nat.le_induction with
  | base => exact (daysBeforeMonth_succ y h1 (by omega)).ge
  | succ n hn ih =>
    have hstep : daysBeforeMonth y n + daysInMonth y n ≤ daysBeforeMonth y (n + 1) :=
      (daysBeforeMonth_succ y (by omega) (by omega)).ge
    exact (ih (by omega)).trans (le_trans (Nat.le_add_right _ _) hstep)

lemma dayNumber_lt_same_year {x x' : Ymd} (hx : validYmd x = true) (hx' : validYmd x' = true)
    (hy : x.y = x'.y) (h : x.m < x'.m ∨ (x.m = x'.m ∧ x.d < x'.d)) :
    dayNumber x < dayNumber x' := by
  obtain ⟨hy1, hy2, hm1, hm2, hd1, hd2⟩ := validYmd_unfold hx
  obtain ⟨hy1', hy2', hm1', hm2', hd1', hd2'⟩ := validYmd_unfold hx'
  unfold dayNumber
  rw [hy]
  rcases h with hm | ⟨hm, hd⟩
  · have := daysBeforeMonth_mono x'.y hm1 hm hm2'
    rw [hy] at hd2
    omega
  · rw [hm]
    omega

lemma dayNumber_year_end {x : Ymd} (hx : validYmd x = true) :
    dayNumber x ≤ dayNumber ⟨x.y, 12, 31⟩ := by
  obtain ⟨hy1, hy2, hm1, hm2, hd1, hd2⟩ := validYmd_unfold hx
  unfold dayNumber
  simp only
  rcases Nat.lt_or_ge x.m 12 with hm | hm
  · have := daysBeforeMonth_mono x.y hm1 hm (le_refl 12)
    omega
  · have hm12 : x.m = 12 := by omega
    rw [hm12]
    have : daysInMonth x.y 12 = 31 := rfl
    rw [hm12, this] at hd2
    omega

lemma dayNumber_year_boundary {y : Nat} (hy : 1 ≤ y) :
    dayNumber ⟨y, 12, 31⟩ < dayNumber ⟨y + 1, 1, 1⟩ := by
  unfold dayNumber
  simp only [Nat.add_sub_cancel]
  have hcan : y - 1 + 1 = y := by omega
  have hstep : leaps y = leaps (y - 1) + (if isLeap y then 1 else 0) := by
    conv_lhs => rw [← hcan]
    rw [leaps_succ, hcan]
  have hdbm12 : daysBeforeMonth y 12 = 334 + (if isLeap y then 1 else 0) := by
    unfold daysBeforeMonth
    norm_num
  have hdbm1 : daysBeforeMonth (y + 1) 1 = 0 := by
    unfold daysBeforeMonth
    norm_num
  rw [hdbm12, hdbm1, hstep]
  split <;> omega

lemma daysBeforeMonth_one (y : Nat) : daysBeforeMonth y 1 = 0 := by
  unfold daysBeforeMonth
  norm_num

lemma dayNumber_year_start_mono {a b : Nat} (h : a ≤ b) :
    dayNumber ⟨a, 1, 1⟩ ≤ dayNumber ⟨b, 1, 1⟩ := by
  unfold dayNumber
  simp only [daysBeforeMonth_one]
  have := leaps_mono (Nat.sub_le_sub_right h 1)
  omega

lemma dayNumber_year_start_le {x : Ymd} (hx : validYmd x = true) :
    dayNumber ⟨x.y, 1, 1⟩ ≤ dayNumber x := by
  obtain ⟨hy1, hy2, hm1, hm2, hd1, hd2⟩ := validYmd_unfold hx
  unfold dayNumber
  simp only
  have hdbm1 : daysBeforeMonth x.y 1 = 0 := by
    unfold daysBeforeMonth
    norm_num
  rw [hdbm1]
  omega

lemma dayNumber_strictMono {x x' : Ymd} (hx : validYmd x = true) (hx' : validYmd x' = true)
    (h : ymdLt x x') : dayNumber x < dayNumber x' := by
  obtain ⟨hy1, hy2, hm1, hm2, hd1, hd2⟩ := validYmd_unfold hx
  obtain ⟨hy1', hy2', hm1', hm2', hd1', hd2'⟩ := validYmd_unfold hx'
  rcases h with hy | ⟨hy, hrest⟩
  · calc dayNumber x ≤ dayNumber ⟨x.y, 12, 31⟩ := dayNumber_year_end hx
      _ < dayNumber ⟨x.y + 1, 1, 1⟩ := dayNumber_year_boundary (by omega)
      _ ≤ dayNumber ⟨x'.y, 1, 1⟩ := dayNumber_year_start_mono (by omega)
      _ ≤ dayNumber x' := dayNumber_year_start_le hx'
  · exact dayNumber_lt_same_year hx hx' hy hrest

/-! ## Parse postconditions and bucket invariants -/

lemma jsDateParse_valid {l : List Char} {x : Ymd} (h : jsDateParse l = some x) :
    validYmd x = true := by
  unfold jsDateParse at h
  split at h
  · split_ifs at h with h1 h2
    · injection h with h3
      rw [← h3]
      exact h2
  · cases h

lemma tryParseDate_shape {raw : Option String} {iso : String} (h : tryParseDate raw = some iso) :
    ∃ x, validYmd x = true ∧ iso = toISO x := by
  rcases raw with _ | r
  · simp [tryParseDate] at h
  · simp only [tryParseDate] at h
    split_ifs at h
    split at h
    · next x hx =>
      injection h with h3
      exact ⟨x, jsDateParse_valid hx, h3.symm⟩
    · rcases Option.map_eq_some'.mp h with ⟨x, hx, hiso⟩
      exact ⟨x, jsDateParse_valid hx, hiso.symm⟩

lemma addMetrics_dateISO (sel : Selections) (r : Row) (e : DailyAggregate) :
    (addMetrics sel r e).dateISO = e.dateISO := rfl

lemma updateBucket_keys (sel : Selections) (bucket : List DailyAggregate) (r : Row)
    (iso : String) :
    (updateBucket sel bucket r iso).map DailyAggregate.dateISO =
      if bucket.any (fun e => e.dateISO = iso) then bucket.map DailyAggregate.dateISO
      else bucket.map DailyAggregate.dateISO ++ [iso] := by
  unfold updateBucket
  split_ifs with h
  · simp only [List.map_map]
    congr 1
    funext e
    by_cases he : e.dateISO = iso <;> simp [he, Function.comp, addMetrics_dateISO]
  · simp [addMetrics_dateISO, emptyAgg]

lemma bucket_fold_valid (dc : String) (sel : Selections) :
    ∀ (rows : List Row) (b : List DailyAggregate),
      (∀ e ∈ b, ∃ x, validYmd x = true ∧ e.dateISO = toISO x) →
      ∀ e ∈ rows.foldl (bucketStep dc sel) b, ∃ x, validYmd x = true ∧ e.dateISO = toISO x := by
  intro rows
  induction rows with
  | nil => intro b hb e he; exact hb e he
  | cons r rows ih =>
    intro b hb e he
    refine ih (bucketStep dc sel b r) ?_ e he
    intro e' he'
    unfold bucketStep at he'
    split at he'
    · exact hb e' he'
    · next iso hiso =>
      unfold updateBucket at he'
      split_ifs at he' with hany
      · rcases List.mem_map.mp he' with ⟨e0, he0, rfl⟩
        by_cases h0 : e0.dateISO = iso
        · rcases tryParseDate_shape hiso with ⟨x, hx1, hx2⟩
          exact ⟨x, hx1, by simp [h0, addMetrics_dateISO, hx2]⟩
        · simpa [h0] using hb e0 he0
      · rcases List.mem_append.mp he' with h0 | h0
        · exact hb e' h0
        · rcases tryParseDate_shape hiso with ⟨x, hx1, hx2⟩
          simp only [List.mem_singleton] at h0
          exact ⟨x, hx1, by simp [h0, addMetrics_dateISO, emptyAgg, hx2]⟩

lemma buildBucket_valid {rows : List Row} {dc : String} {sel : Selections} :
    ∀ e ∈ buildBucket rows dc sel, ∃ x, validYmd x = true ∧ e.dateISO = toISO x :=
  bucket_fold_valid dc sel rows [] (by simp)

lemma bucket_fold_nodup (dc : String) (sel : Selections) :
    ∀ (rows : List Row) (b : List DailyAggregate),
      (b.map DailyAggregate.dateISO).Nodup →
      ((rows.foldl (bucketStep dc sel) b).map DailyAggregate.dateISO).Nodup := by
  intro rows
  induction rows with
  | nil => intro b hb; exact hb
  | cons r rows ih =>
    intro b hb
    refine ih (bucketStep dc sel b r) ?_
    unfold bucketStep
    split
    · exact hb
    · next iso hiso =>
      rw [updateBucket_keys]
      split_ifs with hany
      · exact hb
      · refine List.Nodup.append hb (List.nodup_singleton iso) ?_
        intro a ha hb'
        simp only [List.mem_singleton] at hb'
        subst hb'
        rcases List.mem_map.mp ha with ⟨e0, he0, h0⟩
        exact hany (List.any_eq_true.mpr ⟨e0, he0, by simp [h0]⟩)

lemma buildBucket_nodup {rows : List Row} {dc : String} {sel : Selections} :
    ((buildBucket rows dc sel).map DailyAggregate.dateISO).Nodup :=
  bucket_fold_nodup dc sel rows [] (by simp)

lemma updateBucket_ne_nil (sel : Selections) (bucket : List DailyAggregate) (r : Row)
    (iso : String) : updateBucket sel bucket r iso ≠ [] := by
  unfold updateBucket
  split_ifs with h
  · intro hc
    rcases bucket with _ | ⟨e, b⟩
    · simp at h
    · simp at hc
  · simp

lemma bucket_fold_ne_nil (dc : String) (sel : Selections) :
    ∀ (rows : List Row) (b : List DailyAggregate), b ≠ [] →
      rows.foldl (bucketStep dc sel) b ≠ [] := by
  intro rows
  induction rows with
  | nil => intro b hb; exact hb
  | cons r rows ih =>
    intro b hb
    refine ih _ ?_
    unfold bucketStep
    split
    · exact hb
    · exact updateBucket_ne_nil _ _ _ _

lemma buildBucket_ne_nil {rows : List Row} {dc : String} {sel : Selections}
    (h : ∃ r ∈ rows, (tryParseDate (lookupCell r dc)).isSome = true) :
    buildBucket rows dc sel ≠ [] := by
  unfold buildBucket
  rcases h with ⟨r0, hr0, hparse⟩
  induction rows with
  | nil => cases hr0
  | cons r rows ih =>
    rw [List.foldl_cons]
    rcases List.mem_cons.mp hr0 with rfl | hmem
    · apply bucket_fold_ne_nil
      unfold bucketStep
      rcases hp : tryParseDate (lookupCell r0 dc) with _ | iso
      · rw [hp] at hparse; cases hparse
      · exact updateBucket_ne_nil _ _ _ _
    · rcases hp : tryParseDate (lookupCell r dc) with _ | iso
      · unfold bucketStep
        rw [hp]
        exact ih hmem
      · apply bucket_fold_ne_nil
        unfold bucketStep
        rw [hp]
        exact updateBucket_ne_nil _ _ _ _

lemma sortDaily_ne_nil {l : List DailyAggregate} (h : l ≠ []) : sortDaily l ≠ [] := by
  intro hc
  have := (sortDaily_perm l).length_eq
  rw [hc] at this
  rcases l with _ | ⟨e, l⟩
  · exact h rfl
  · simp at this

/-- `detectDateColumn` only returns a column with at least one date-parsable
cell. -/
lemma detectDateColumn_hits {rows : List Row} {headers : List String} {c : String}
    (h : detectDateColumn rows headers = some c) : 1 ≤ dateHits rows c := by
  unfold detectDateColumn at h
  rcases hfold : (headers.foldl (fun best h =>
    let n := dateHits rows h
    if n = 0 then best
    else
      match best with
      | none => some (h, n)
      | some (b, bn) => if bn < n then some (h, n) else some (b, bn)) none) with _ | ⟨b, bn⟩
  · rw [hfold] at h; cases h
  · rw [hfold] at h
    injection h with h'
    subst h'
    -- fold invariant: any `some (b, bn)` result has `bn = dateHits rows b` and `1 ≤ bn`
    suffices H : ∀ (hs : List String) (b0 : Option (String × Nat)),
        (b0 = none ∨ ∃ p, b0 = some p ∧ p.2 = dateHits rows p.1 ∧ 1 ≤ p.2) →
        ∀ p, (hs.foldl (fun best h =>
          let n := dateHits rows h
          if n = 0 then best
          else
            match best with
            | none => some (h, n)
            | some (b, bn) => if bn < n then some (h, n) else some (b, bn)) b0) = some p →
          p.2 = dateHits rows p.1 ∧ 1 ≤ p.2 by
      exact ((H headers none (Or.inl rfl) (b, bn) hfold).2).trans ((H headers none (Or.inl rfl) (b, bn) hfold).1 ▸ le_refl _)
    intro hs
    induction hs with
    | nil =>
      intro b0 hb0 p hp
      rcases hb0 with rfl | ⟨q, rfl, hq⟩
      · cases hp
      · simp only [List.foldl_nil] at hp
        injection hp with hp'
        subst hp'
        exact hq
    | cons hh hs ih =>
      intro b0 hb0 p hp
      rw [List.foldl_cons] at hp
      refine ih _ ?_ p hp
      by_cases hn : dateHits rows hh = 0
      · simp only [hn, if_pos rfl]
        exact hb0
      · simp only [if_neg hn]
        rcases hb0 with rfl | ⟨q, rfl, hq1, hq2⟩
        · exact Or.inr ⟨(hh, dateHits rows hh), rfl, rfl, by omega⟩
        · by_cases hlt : q.2 < dateHits rows hh
          · refine Or.inr ⟨(hh, dateHits rows hh), ?_, rfl, by omega⟩
            simp [hlt]
          · refine Or.inr ⟨q, ?_, hq1, hq2⟩
            simp [hlt]

/-- A `some` result of `detectDateColumn` certifies a record whose cell in
that column parses as a date. -/
lemma detectDateColumn_witness {rows : List Row} {headers : List String} {c : String}
    (h : detectDateColumn rows headers = some c) :
    ∃ r ∈ rows, (tryParseDate (lookupCell r c)).isSome = true := by
  have := detectDateColumn_hits h
  unfold dateHits at this
  exact List.countP_pos_iff.mp (by omega)

/-! ## Projections of `mkResult` and inversion of `aggregate` -/

lemma mkResult_daily (d0 : DailyAggregate) (rest : List DailyAggregate) :
    (mkResult d0 rest).daily = d0 :: rest := rfl

lemma mkResult_operatingDays (d0 : DailyAggregate) (rest : List DailyAggregate) :
    (mkResult d0 rest).summary.operatingDays = (d0 :: rest).length := rfl

lemma mkResult_totals (d0 : DailyAggregate) (rest : List DailyAggregate) :
    (mkResult d0 rest).summary.totals = sumDaily (d0 :: rest) := rfl

lemma mkResult_ratios (d0 : DailyAggregate) (rest : List DailyAggregate) :
    (mkResult d0 rest).summary.ratios = mkRatios (sumDaily (d0 :: rest)) := rfl

lemma mkResult_calendarDays (d0 : DailyAggregate) (rest : List DailyAggregate) :
    (mkResult d0 rest).summary.calendarDays =
      jsRound (((epochMs ((d0 :: rest).getLast (List.cons_ne_nil d0 rest)).dateISO -
        epochMs d0.dateISO : Int) : ℚ) / 86400000) + 1 := rfl

lemma jsRound_day_diff (a b : Int) :
    jsRound (((86400000 * a - 86400000 * b : Int) : ℚ) / 86400000) = a - b := by
  have h : ((86400000 * a - 86400000 * b : Int) : ℚ) / 86400000 = ((a - b : Int) : ℚ) := by
    push_cast
    field_simp
    ring
  rw [h]
  unfold jsRound
  exact round_intCast _

lemma mkResult_calendarDays_eq (d0 : DailyAggregate) (rest : List DailyAggregate) :
    (mkResult d0 rest).summary.calendarDays =
      isoDayNumber (((d0 :: rest).getLast (List.cons_ne_nil d0 rest)).dateISO) -
        isoDayNumber d0.dateISO + 1 := by
  rw [mkResult_calendarDays]
  unfold epochMs
  rw [jsRound_day_diff]

lemma aggregate_ok_elim {rows : List Row} {out : AggResult} (h : aggregate rows = .ok out) :
    ∃ dc d0 rest, rows ≠ [] ∧ detectDateColumn rows (headersOf rows) = some dc ∧
      dc.data.isEmpty = false ∧
      missingOf (detectMetricColumns rows (headersOf rows)) = [] ∧
      sortDaily (buildBucket rows dc (detectMetricColumns rows (headersOf rows))) = d0 :: rest ∧
      out = mkResult d0 rest := by
  unfold aggregate at h
  rcases rows with _ | ⟨r0, rows'⟩
  · cases h
  · simp only at h
    rcases hdc : detectDateColumn (r0 :: rows') (headersOf (r0 :: rows')) with _ | dc
    · rw [hdc] at h; cases h
    · rw [hdc] at h
      dsimp only at h
      by_cases hemp : dc.data.isEmpty = true
      · rw [if_pos hemp] at h; cases h
      · rw [if_neg hemp] at h
        rcases hmiss : missingOf (detectMetricColumns (r0 :: rows') (headersOf (r0 :: rows')))
          with _ | ⟨m, ms⟩
        · rw [hmiss] at h
          dsimp only at h
          rcases hsort : sortDaily (buildBucket (r0 :: rows') dc
              (detectMetricColumns (r0 :: rows') (headersOf (r0 :: rows')))) with _ | ⟨d0, rest⟩
          · rw [hsort] at h; cases h
          · rw [hsort] at h
            injection h with h'
            exact ⟨dc, d0, rest, by simp, rfl, Bool.eq_false_iff.mpr hemp,
              rfl, hsort, h'.symm⟩
        · rw [hmiss] at h; cases h

/-- The key chain for the day-count invariant: a strictly ascending daily list
has its last day number at least `length - 1` above its first. -/
lemma head_last_gap : ∀ (d0 : DailyAggregate) (rest : List DailyAggregate),
    List.Pairwise (fun a b => isoDayNumber a.dateISO < isoDayNumber b.dateISO) (d0 :: rest) →
    isoDayNumber d0.dateISO + rest.length ≤
      isoDayNumber (((d0 :: rest).getLast (List.cons_ne_nil d0 rest)).dateISO) := by
  intro d0 rest
  induction rest generalizing d0 with
  | nil => intro _; simp
  | cons d1 rest' ih =>
    intro hp
    have h01 : isoDayNumber d0.dateISO < isoDayNumber d1.dateISO :=
      (List.pairwise_cons.mp hp).1 d1 (List.mem_cons_self _ _)
    have htail := (List.pairwise_cons.mp hp).2
    have := ih d1 htail
    rw [List.getLast_cons (List.cons_ne_nil d1 rest')]
    simp only [List.length_cons]
    omega

/-! ## Note strings of the signal generator (used to state its shape) -/

/-- The first `buildSignals` message: the normalization note. -/
def normalizationNote (operatingDays : Nat) (calendarDays : Int) : String :=
  if (operatingDays : Int) < calendarDays then
    let o := toString operatingDays
    let c := toString calendarDays
    s!"Operating-day normalization matters: {o} active days across {c} calendar days. Totals alone understate per-day performance."
  else "Performance is normalized: every calendar day shows activity."

/-- The optional driver note of `buildSignals`. -/
def driverNote (perOperatingDay : Metrics) (ratios : Ratios) : String :=
  if ratios.netPerTransaction * (3 / 2) > perOperatingDay.transactions then
    "Revenue is driven more by ticket size than transaction volume; protect average check to maintain momentum."
  else if perOperatingDay.transactions * (3 / 2) > ratios.netPerTransaction then
    "Revenue is volume-led; keep an eye on traffic levers and service speed."
  else "Ticket size and volume are balanced drivers of revenue."

/-- The discount note of `buildSignals`. -/
def discountNote (r : ℚ) : String :=
  if r ≥ 15 / 100 then
    "Discount pressure is material (discounts over 15% of gross). Ensure promos are intentional."
  else if r > 5 / 100 then
    "Moderate discounting detected; track whether promos are lifting ticket size or just eroding margin."
  else "Discount impact is light; margin preservation is strong."

/-- The tips note of `buildSignals`. -/
def tipsNote (t : ℚ) : String :=
  if t < 1 then
    "Tips per transaction are soft; consider service quality or customer mix changes."
  else if t > 5 / 2 then
    "Tips per transaction are strong; service experience may be a differentiator."
  else "Tips per transaction are steady; no major behavioral signal detected."

/-! ## Concrete inputs used by counterexamples and witnesses -/

/-- A one-record CSV with a date column and two labelled metric columns. -/
def rowsDGN : List Row :=
  [[("Date", "2024-01-15"), ("Gross", "100"), ("Net", "90")]]

/-- Two hint-free numeric columns: `A` is numeric in one record, `B` in two. -/
def rowsAB : List Row :=
  [[("A", "1"), ("B", "2")], [("A", "x"), ("B", "3")]]

/-- The spec's end-to-end scenario A record set. -/
def rowsSquare : List Row :=
  [[("Date", "2024-01-01"), ("Total Sales", "$100.00"), ("Net Sales", "$90.00"),
    ("Discounts", "$5.00"), ("Tip", "$10.00"), ("Orders", "10")],
   [("Date", "2024-01-03"), ("Total Sales", "$200.00"), ("Net Sales", "$180.00"),
    ("Discounts", "$0.00"), ("Tip", "$30.00"), ("Orders", "15")]]

/-- A record set with an unnamed numeric column: its `net` selection is the
empty name, which the JS truthiness checks treat as missing. -/
def rowsEmptyCol : List Row :=
  [[("Date", "2024-01-15"), ("", "5"), ("x", "7")]]

/-- Placeholder result for extracting the value of a successful `aggregate`. -/
def fallbackAgg : AggResult :=
  ⟨[], ⟨0, 0, ⟨0, 0, 0, 0, 0⟩, ⟨0, 0, 0, 0, 0⟩, ⟨0, 0, 0, 0, 0⟩, ⟨0, 0, 0⟩, []⟩⟩

/-- The value carried by a successful `aggregate` run. -/
def aggOutOf (rows : List Row) : AggResult :=
  match aggregate rows with
  | .ok o => o
  | .error _ => fallbackAgg

/-! ## Claims -/

/-- C5: `parseDate` is total by construction (it is a function into
`Option String`); `parseDate("01/15/2024")` is `"2024-01-15"`;
`parseDate("not a date")` is absent; and when the first parse (on the
slash-normalized trimmed value) fails, the result is exactly the parse of the
substring of the trimmed value before the first whitespace or `T` character. -/
theorem tryParseDate_spec :
    tryParseDate (some "01/15/2024") = some "2024-01-15" ∧
    tryParseDate (some "not a date") = none ∧
    (∀ r : String, trimChars r.data ≠ [] →
      jsDateParse ((trimChars r.data).map (fun c => if c = '/' then '-' else c)) = none →
      tryParseDate (some r) =
        (jsDateParse ((trimChars r.data).takeWhile
          (fun c => !(isJsWhitespace c || c = 'T')))).map toISO) := by
  refine ⟨by with_unfolding_all rfl, by with_unfolding_all rfl, ?_⟩
  intro r h1 h2
  have hE : (trimChars r.data).isEmpty = false := by
    cases hl : trimChars r.data
    · exact absurd hl h1
    · rfl
  simp only [tryParseDate, hE, Bool.false_eq_true, if_false, h2]

/-- C5 witness: the retry branch applied to a concrete cell with a trailing
time-of-day suffix. -/
theorem tryParseDate_spec_witness :
    tryParseDate (some "2024-01-15T08:30") = some "2024-01-15" := by
  have h := tryParseDate_spec.2.2 "2024-01-15T08:30"
    (by with_unfolding_all decide) (by with_unfolding_all rfl)
  rw [h]
  with_unfolding_all rfl

/-- C6: `parseNumber` is total by construction (a function into `ℚ`);
`parseNumber("$1,234.50")` is 1234.50; `parseNumber("(12.00)")` is 12
(parentheses stripped, not negated); `parseNumber("12%")` is 12; undefined and
empty cells give 0; and any cell whose normalized text fails the float parse
gives 0. -/
theorem parseNumber_spec :
    parseNumber (some "$1,234.50") = 1234.5 ∧
    parseNumber (some "(12.00)") = 12 ∧
    parseNumber (some "12%") = 12 ∧
    parseNumber none = 0 ∧
    parseNumber (some "") = 0 ∧
    (∀ s : String,
      jsParseFloat (((((trimChars s.data).filter
        (fun c => !(c = '$' || c = ',' || isJsWhitespace c))).filter
        (fun c => !(c = '(' || c = ')'))).filter (fun c => !(c = '%'))).filter
        (fun c => !(c = '\u00A0'))) = none →
      parseNumber (some s) = 0) := by
  refine ⟨by with_unfolding_all rfl, by with_unfolding_all rfl,
    by with_unfolding_all rfl, by with_unfolding_all rfl,
    by with_unfolding_all rfl, ?_⟩
  intro s h
  simp only [parseNumber]
  by_cases hE : (trimChars s.data).isEmpty
  · rw [if_pos hE]
  · rw [if_neg hE, h]

/-- C6 witness: a concrete garbage cell maps to 0 through the unparseable
branch. -/
theorem parseNumber_spec_witness : parseNumber (some "n/a") = 0 := by
  exact parseNumber_spec.2.2.2.2.2 "n/a" (by with_unfolding_all rfl)

/-- C7: for every successful run of `aggregate`, the three ratios return 0 on
a zero denominator and the exact quotient otherwise. -/
theorem ratios_guarded {rows : List Row} {out : AggResult} (h : aggregate rows = .ok out) :
    (out.summary.totals.transactions = 0 →
      out.summary.ratios.netPerTransaction = 0 ∧ out.summary.ratios.tipsPerTransaction = 0) ∧
    (out.summary.totals.gross = 0 → out.summary.ratios.discountRate = 0) ∧
    (out.summary.totals.transactions ≠ 0 →
      out.summary.ratios.netPerTransaction =
        out.summary.totals.net / out.summary.totals.transactions ∧
      out.summary.ratios.tipsPerTransaction =
        out.summary.totals.tips / out.summary.totals.transactions) ∧
    (out.summary.totals.gross ≠ 0 →
      out.summary.ratios.discountRate =
        out.summary.totals.discounts / out.summary.totals.gross) := by
  rcases aggregate_ok_elim h with ⟨dc, d0, rest, _, _, _, _, _, rfl⟩
  rw [mkResult_ratios, mkResult_totals]
  unfold mkRatios
  refine ⟨?_, ?_, ?_, ?_⟩ <;> intro hz <;> simp [hz]

/-- C7 witness: the scenario-A record set has nonzero transactions and gross,
and its ratios are the exact quotients; `rowsDGN` exercises the
zero-transactions guard. -/
theorem ratios_guarded_witness :
    aggregate rowsSquare = .ok (aggOutOf rowsSquare) ∧
    (aggOutOf rowsSquare).summary.totals.transactions ≠ 0 ∧
    (aggOutOf rowsSquare).summary.ratios.netPerTransaction =
      (aggOutOf rowsSquare).summary.totals.net /
        (aggOutOf rowsSquare).summary.totals.transactions ∧
    aggregate rowsDGN = .ok (aggOutOf rowsDGN) ∧
    (aggOutOf rowsDGN).summary.totals.transactions = 0 ∧
    (aggOutOf rowsDGN).summary.ratios.netPerTransaction = 0 := by
  have hok : aggregate rowsSquare = .ok (aggOutOf rowsSquare) := by with_unfolding_all rfl
  have htx : (aggOutOf rowsSquare).summary.totals.transactions ≠ 0 := by
    have h25 : (aggOutOf rowsSquare).summary.totals.transactions = 25 := by
      with_unfolding_all rfl
    rw [h25]
    norm_num
  have hok2 : aggregate rowsDGN = .ok (aggOutOf rowsDGN) := by with_unfolding_all rfl
  have htx2 : (aggOutOf rowsDGN).summary.totals.transactions = 0 := by
    with_unfolding_all rfl
  exact ⟨hok, htx, ((ratios_guarded hok).2.2.1 htx).1, hok2, htx2,
    ((ratios_guarded hok2).1 htx2).1⟩

/-- C10: `buildSignals` always produces the normalization note first, then the
driver note exactly when per-operating-day gross, net-per-transaction and
per-operating-day transactions are all nonzero, then the discount note and the
tips note; so it emits 3 or 4 messages, 4 exactly under the driver condition. -/
theorem buildSignals_spec (od : Nat) (cd : Int) (p : Metrics) (r : Ratios) :
    buildSignals od cd p r =
      normalizationNote od cd ::
        ((if p.gross ≠ 0 ∧ r.netPerTransaction ≠ 0 ∧ p.transactions ≠ 0 then [driverNote p r]
          else []) ++ [discountNote r.discountRate, tipsNote r.tipsPerTransaction]) ∧
    ((buildSignals od cd p r).length = 3 ∨ (buildSignals od cd p r).length = 4) ∧
    ((buildSignals od cd p r).length = 4 ↔
      (p.gross ≠ 0 ∧ r.netPerTransaction ≠ 0 ∧ p.transactions ≠ 0)) := by
  have hmain : buildSignals od cd p r =
      normalizationNote od cd ::
        ((if p.gross ≠ 0 ∧ r.netPerTransaction ≠ 0 ∧ p.transactions ≠ 0 then [driverNote p r]
          else []) ++ [discountNote r.discountRate, tipsNote r.tipsPerTransaction]) := by
    have norm_eq : ∀ msgs : List String,
        (if (od : Int) < cd then
          msgs ++ [s!"Operating-day normalization matters: {toString od} active days across {toString cd} calendar days. Totals alone understate per-day performance."]
        else
          msgs ++ ["Performance is normalized: every calendar day shows activity."]) =
        msgs ++ [normalizationNote od cd] := by
      intro msgs
      unfold normalizationNote
      split_ifs <;> rfl
    have driver_eq : ∀ msgs : List String,
        (if p.gross ≠ 0 ∧ r.netPerTransaction ≠ 0 ∧ p.transactions ≠ 0 then
          if r.netPerTransaction * (3 / 2) > p.transactions then
            msgs ++ ["Revenue is driven more by ticket size than transaction volume; protect average check to maintain momentum."]
          else if p.transactions * (3 / 2) > r.netPerTransaction then
            msgs ++ ["Revenue is volume-led; keep an eye on traffic levers and service speed."]
          else
            msgs ++ ["Ticket size and volume are balanced drivers of revenue."]
        else msgs) =
        msgs ++ (if p.gross ≠ 0 ∧ r.netPerTransaction ≠ 0 ∧ p.transactions ≠ 0 then
          [driverNote p r] else []) := by
      intro msgs
      unfold driverNote
      split_ifs <;> simp
    have discount_eq : ∀ msgs : List String,
        (if r.discountRate ≥ 15 / 100 then
          msgs ++ ["Discount pressure is material (discounts over 15% of gross). Ensure promos are intentional."]
        else if r.discountRate > 5 / 100 then
          msgs ++ ["Moderate discounting detected; track whether promos are lifting ticket size or just eroding margin."]
        else
          msgs ++ ["Discount impact is light; margin preservation is strong."]) =
        msgs ++ [discountNote r.discountRate] := by
      intro msgs
      unfold discountNote
      split_ifs <;> rfl
    have tips_eq : ∀ msgs : List String,
        (if r.tipsPerTransaction < 1 then
          msgs ++ ["Tips per transaction are soft; consider service quality or customer mix changes."]
        else if r.tipsPerTransaction > 5 / 2 then
          msgs ++ ["Tips per transaction are strong; service experience may be a differentiator."]
        else
          msgs ++ ["Tips per transaction are steady; no major behavioral signal detected."]) =
        msgs ++ [tipsNote r.tipsPerTransaction] := by
      intro msgs
      unfold tipsNote
      split_ifs <;> rfl
    unfold buildSignals
    simp only [norm_eq]
    simp only [driver_eq]
    simp only [discount_eq]
    simp only [tips_eq]
    simp [List.append_assoc]
  refine ⟨hmain, ?_, ?_⟩ <;> rw [hmain] <;>
    by_cases hc : p.gross ≠ 0 ∧ r.netPerTransaction ≠ 0 ∧ p.transactions ≠ 0 <;> simp [hc]

/-- C1 counterexample: for the `gross` Metric Key on `rowsAB`, both columns
are eligible and unclaimed, column `B` has the strictly larger weighted score
(2 versus 1), yet `detectMetricColumns` selects `A`: a zero-hint column is
never considered once any candidate exists, so the selection does not maximize
the documented score. -/
theorem detectMetricColumns_not_max :
    (detectMetricColumns rowsAB (headersOf rowsAB)).gross = some "A" ∧
    eligibleCol rowsAB "A" = true ∧
    eligibleCol rowsAB "B" = true ∧
    weightedScore rowsAB (metricHints .gross) "A" = 1 ∧
    weightedScore rowsAB (metricHints .gross) "B" = 2 := by
  refine ⟨?_, ?_, ?_, ?_, ?_⟩ <;> with_unfolding_all rfl

/-- C2 counterexample: on `rowsDGN` the pipeline selects `Date` as the date
column and then also selects `Date` for the `discounts` Metric Key, so a
column is reused across roles. -/
theorem date_column_reused :
    detectDateColumn rowsDGN (headersOf rowsDGN) = some "Date" ∧
    (detectMetricColumns rowsDGN (headersOf rowsDGN)).discounts = some "Date" := by
  constructor <;> with_unfolding_all rfl

/-! ## The metric-selection fold -/

lemma metricStep_cases (rows : List Row) (hints : List String) (b : Option (String × Nat))
    (h : String) :
    metricStep rows hints b h = b ∨
      (eligibleCol rows h = true ∧
        metricStep rows hints b h = some (h, weightedScore rows hints h)) := by
  unfold metricStep weightedScore
  by_cases he : eligibleCol rows h
  · rw [if_neg (by simp [he])]
    rcases b with _ | p
    · rw [if_neg (by simp)]
      exact Or.inr ⟨he, rfl⟩
    · dsimp only
      by_cases hz : hintScore hints h = 0
      · rw [if_pos (by simp [hz])]
        exact Or.inl rfl
      · rw [if_neg (by simp [hz])]
        by_cases hlt : p.2 < hintScore hints h * 2 + density rows h
        · rw [if_pos hlt]
          exact Or.inr ⟨he, rfl⟩
        · rw [if_neg hlt]
          exact Or.inl rfl
  · simp [he]

lemma metricStep_grows (rows : List Row) (hints : List String) (p : String × Nat)
    (h : String) :
    ∃ q, metricStep rows hints (some p) h = some q ∧ p.2 ≤ q.2 := by
  rcases metricStep_cases rows hints (some p) h with h0 | ⟨_, h0⟩
  · exact ⟨p, h0, le_refl _⟩
  · refine ⟨(h, weightedScore rows hints h), h0, ?_⟩
    unfold metricStep at h0
    by_cases he : eligibleCol rows h
    · simp only [he, Bool.not_true, Bool.false_eq_true, if_false, Option.isSome_some,
        Bool.and_true] at h0
      by_cases hz : hintScore hints h = 0
      · rw [if_pos (by simp [hz])] at h0
        injection h0 with h0'
        simp [h0']
      · rw [if_neg (by simp [hz])] at h0
        by_cases hlt : p.2 < hintScore hints h * 2 + density rows h
        · have : weightedScore rows hints h = hintScore hints h * 2 + density rows h := rfl
          omega
        · rw [if_neg hlt] at h0
          injection h0 with h0'
          simp [h0']
    · simp [he] at h0
      simp [h0]

lemma foldl_metricStep_some (rows : List Row) (hints : List String) :
    ∀ (avail : List String) (hb : String × Nat),
      ∃ p, avail.foldl (metricStep rows hints) (some hb) = some p ∧ hb.2 ≤ p.2 := by
  intro avail
  induction avail with
  | nil => exact fun hb => ⟨hb, rfl, le_refl _⟩
  | cons c cs ih =>
    intro hb
    rw [List.foldl_cons]
    rcases metricStep_grows rows hints hb c with ⟨q, hq, hle⟩
    rw [hq]
    rcases ih q with ⟨p, hp, hle2⟩
    exact ⟨p, hp, hle.trans hle2⟩

lemma foldl_metricStep_shape (rows : List Row) (hints : List String) :
    ∀ (avail : List String) (b : Option (String × Nat)) p,
      avail.foldl (metricStep rows hints) b = some p →
      b = some p ∨ (p.1 ∈ avail ∧ eligibleCol rows p.1 = true ∧
        p.2 = weightedScore rows hints p.1) := by
  intro avail
  induction avail with
  | nil => intro b p h; exact Or.inl h
  | cons c cs ih =>
    intro b p h
    rw [List.foldl_cons] at h
    rcases ih (metricStep rows hints b c) p h with h0 | h0
    · rcases metricStep_cases rows hints b c with h1 | ⟨h1, h2⟩
      · exact Or.inl (h1 ▸ h0)
      · rw [h2] at h0
        injection h0 with h0'
        refine Or.inr ⟨?_, ?_, ?_⟩
        · rw [← h0']; exact List.mem_cons_self _ _
        · rw [← h0']; exact h1
        · rw [← h0']
    · exact Or.inr ⟨List.mem_cons_of_mem _ h0.1, h0.2.1, h0.2.2⟩

lemma metricStep_hinted (rows : List Row) (hints : List String) {h : String}
    (he : eligibleCol rows h = true) (hh : 1 ≤ hintScore hints h)
    (b : Option (String × Nat)) :
    ∃ q, metricStep rows hints b h = some q ∧ weightedScore rows hints h ≤ q.2 := by
  unfold metricStep
  simp only [he, Bool.not_true, Bool.false_eq_true, if_false]
  have hskip : (decide (hintScore hints h = 0) && b.isSome) = false := by
    simp only [Bool.and_eq_false_iff]
    left
    simp only [decide_eq_false_iff_not]
    omega
  rw [if_neg (by simp [hskip])]
  have hw : weightedScore rows hints h = hintScore hints h * 2 + density rows h := rfl
  rcases b with _ | p
  · exact ⟨(h, hintScore hints h * 2 + density rows h), rfl, hw.le⟩
  · dsimp only
    by_cases hlt : p.2 < hintScore hints h * 2 + density rows h
    · exact ⟨(h, hintScore hints h * 2 + density rows h), by rw [if_pos hlt], hw.le⟩
    · exact ⟨p, by rw [if_neg hlt], by omega⟩

lemma foldl_metricStep_max (rows : List Row) (hints : List String) :
    ∀ (avail : List String) (b : Option (String × Nat)) p,
      avail.foldl (metricStep rows hints) b = some p →
      ∀ h' ∈ avail, eligibleCol rows h' = true → 1 ≤ hintScore hints h' →
        weightedScore rows hints h' ≤ p.2 := by
  intro avail
  induction avail with
  | nil => intro _ _ _ h' hmem; cases hmem
  | cons c cs ih =>
    intro b p hfold h' hmem helig hhint
    rw [List.foldl_cons] at hfold
    rcases List.mem_cons.mp hmem with rfl | hmem'
    · rcases metricStep_hinted rows hints helig hhint b with ⟨q, hq, hwq⟩
      rw [hq] at hfold
      rcases foldl_metricStep_some rows hints cs q with ⟨p', hp', hle⟩
      rw [hfold] at hp'
      injection hp' with hp''
      rw [hp'']
      omega
    · exact ih _ p hfold h' hmem' helig hhint

lemma foldl_metricStep_first (rows : List Row) (hints : List String) :
    ∀ (avail : List String) (f : String) (p : String × Nat),
      avail.find? (eligibleCol rows) = some f →
      avail.foldl (metricStep rows hints) none = some p →
      weightedScore rows hints f ≤ p.2 := by
  intro avail
  induction avail with
  | nil => intro f p hf; cases hf
  | cons c cs ih =>
    intro f p hf hfold
    rw [List.foldl_cons] at hfold
    by_cases he : eligibleCol rows c
    · rw [List.find?_cons_of_pos _ he] at hf
      injection hf with hf'
      subst hf'
      have hstep : metricStep rows hints none c = some (c, weightedScore rows hints c) := by
        unfold metricStep weightedScore
        simp [he]
      rw [hstep] at hfold
      rcases foldl_metricStep_some rows hints cs (c, weightedScore rows hints c)
        with ⟨p', hp', hle⟩
      rw [hfold] at hp'
      injection hp' with hp''
      rw [hp'']
      exact hle
    · rw [List.find?_cons_of_neg _ (by simp [he])] at hf
      have hstep : metricStep rows hints none c = none := by
        unfold metricStep
        simp [he]
      rw [hstep] at hfold
      exact ih f p hf hfold

/-- C1 amended: for every Metric Key, the selected column is an eligible
still-available column carrying its weighted score, and it maximizes the
weighted score over the columns actually considered: all eligible available
columns with at least one hint match, and the first eligible available
column. (A zero-hint column other than the first eligible one is skipped once
any candidate exists, so the maximum is not over all eligible columns.) -/
theorem selectForMetric_spec {rows : List Row} {hints : List String} {avail : List String}
    {h : String} {w : Nat} (hsel : selectForMetric rows hints avail = some (h, w)) :
    h ∈ avail ∧ eligibleCol rows h = true ∧ w = weightedScore rows hints h ∧
    (∀ h' ∈ avail, eligibleCol rows h' = true → 1 ≤ hintScore hints h' →
      weightedScore rows hints h' ≤ w) ∧
    (∀ f, avail.find? (eligibleCol rows) = some f → weightedScore rows hints f ≤ w) := by
  unfold selectForMetric at hsel
  rcases foldl_metricStep_shape rows hints avail none (h, w) hsel with h0 | h0
  · cases h0
  · exact ⟨h0.1, h0.2.1, h0.2.2,
      fun h' hmem helig hhint => foldl_metricStep_max rows hints avail none (h, w) hsel h' hmem helig hhint,
      fun f hf => foldl_metricStep_first rows hints avail f (h, w) hf hsel⟩

/-- C1 amended witness: on `rowsDGN` the `gross` pick is the `Gross` column
with weighted score 3, certified maximal by `selectForMetric_spec`. -/
theorem selectForMetric_spec_witness :
    selectForMetric rowsDGN (metricHints .gross) (avail0 (headersOf rowsDGN)) =
      some ("Gross", 3) ∧
    "Gross" ∈ avail0 (headersOf rowsDGN) ∧
    weightedScore rowsDGN (metricHints .gross) "Gross" = 3 := by
  have hsel : selectForMetric rowsDGN (metricHints .gross) (avail0 (headersOf rowsDGN)) =
      some ("Gross", 3) := by with_unfolding_all rfl
  have hspec := selectForMetric_spec hsel
  exact ⟨hsel, hspec.1, hspec.2.2.1.symm⟩

/-! ## Distinctness of the metric column selections -/

lemma dedupKeep_spec : ∀ (t seen : List String),
    (dedupKeep seen t).Nodup ∧ ∀ x ∈ dedupKeep seen t, x ∉ seen := by
  intro t
  induction t with
  | nil => intro seen; exact ⟨List.nodup_nil, by simp [dedupKeep]⟩
  | cons h t ih =>
    intro seen
    unfold dedupKeep
    by_cases hmem : h ∈ seen
    · rw [if_pos hmem]
      exact ih seen
    · rw [if_neg hmem]
      obtain ⟨hnd, hnotin⟩ := ih (h :: seen)
      refine ⟨List.nodup_cons.mpr ⟨?_, hnd⟩, ?_⟩
      · intro hc
        exact hnotin h hc (List.mem_cons_self _ _)
      · intro x hx hxseen
        rcases List.mem_cons.mp hx with rfl | hx'
        · exact hmem hxseen
        · exact hnotin x hx' (List.mem_cons_of_mem _ hxseen)

lemma avail0_nodup (headers : List String) : (avail0 headers).Nodup :=
  (dedupKeep_spec headers []).1

lemma selectForMetric_mem {rows : List Row} {hints : List String} {avail : List String}
    {p : String × Nat} (h : selectForMetric rows hints avail = some p) : p.1 ∈ avail := by
  unfold selectForMetric at h
  rcases foldl_metricStep_shape rows hints avail none p h with h0 | h0
  · cases h0
  · exact h0.1

lemma availAfter_subset (avail : List String) (p : Option (String × Nat)) :
    availAfter avail p ⊆ avail := by
  unfold availAfter
  split
  · exact List.erase_subset _ _
  · exact fun _ h => h

lemma availAfter_nodup {avail : List String} (h : avail.Nodup) (p : Option (String × Nat)) :
    (availAfter avail p).Nodup := by
  unfold availAfter
  split
  · exact h.erase _
  · exact h

lemma not_mem_availAfter_self {avail : List String} (hn : avail.Nodup) {p : String × Nat} :
    p.1 ∉ availAfter avail (some p) := by
  unfold availAfter
  intro hc
  exact ((hn.mem_erase_iff).mp hc).1 rfl

lemma avail1_nodup (rows : List Row) (headers : List String) : (avail1 rows headers).Nodup :=
  availAfter_nodup (avail0_nodup headers) _

lemma avail2_nodup (rows : List Row) (headers : List String) : (avail2 rows headers).Nodup :=
  availAfter_nodup (avail1_nodup rows headers) _

lemma avail3_nodup (rows : List Row) (headers : List String) : (avail3 rows headers).Nodup :=
  availAfter_nodup (avail2_nodup rows headers) _

lemma avail4_nodup (rows : List Row) (headers : List String) : (avail4 rows headers).Nodup :=
  availAfter_nodup (avail3_nodup rows headers) _

lemma avail1_sub (rows : List Row) (headers : List String) :
    avail1 rows headers ⊆ avail0 headers := availAfter_subset _ _

lemma avail2_sub (rows : List Row) (headers : List String) :
    avail2 rows headers ⊆ avail1 rows headers := availAfter_subset _ _

lemma avail3_sub (rows : List Row) (headers : List String) :
    avail3 rows headers ⊆ avail2 rows headers := availAfter_subset _ _

lemma avail4_sub (rows : List Row) (headers : List String) :
    avail4 rows headers ⊆ avail3 rows headers := availAfter_subset _ _

lemma avail5_sub (rows : List Row) (headers : List String) :
    avail5 rows headers ⊆ avail4 rows headers := availAfter_subset _ _

/-- Where each metric's chosen column sits: inside the pool its stage started
from. -/
lemma pick1_mem {rows : List Row} {headers : List String} {p : String × Nat}
    (h : pick1 rows headers = some p) : p.1 ∈ avail0 headers := selectForMetric_mem h

lemma pick2_mem {rows : List Row} {headers : List String} {p : String × Nat}
    (h : pick2 rows headers = some p) : p.1 ∈ avail1 rows headers := selectForMetric_mem h

lemma pick3_mem {rows : List Row} {headers : List String} {p : String × Nat}
    (h : pick3 rows headers = some p) : p.1 ∈ avail2 rows headers := selectForMetric_mem h

lemma pick4_mem {rows : List Row} {headers : List String} {p : String × Nat}
    (h : pick4 rows headers = some p) : p.1 ∈ avail3 rows headers := selectForMetric_mem h

lemma pick5_mem {rows : List Row} {headers : List String} {p : String × Nat}
    (h : pick5 rows headers = some p) : p.1 ∈ avail4 rows headers := selectForMetric_mem h

/-- Each metric's chosen column is gone from the pool its stage leaves
behind. -/
lemma pick1_gone {rows : List Row} {headers : List String} {p : String × Nat}
    (h : pick1 rows headers = some p) : p.1 ∉ avail1 rows headers := by
  unfold avail1
  rw [h]
  exact not_mem_availAfter_self (avail0_nodup headers)

lemma pick2_gone {rows : List Row} {headers : List String} {p : String × Nat}
    (h : pick2 rows headers = some p) : p.1 ∉ avail2 rows headers := by
  unfold avail2
  rw [h]
  exact not_mem_availAfter_self (avail1_nodup rows headers)

lemma pick3_gone {rows : List Row} {headers : List String} {p : String × Nat}
    (h : pick3 rows headers = some p) : p.1 ∉ avail3 rows headers := by
  unfold avail3
  rw [h]
  exact not_mem_availAfter_self (avail2_nodup rows headers)

lemma pick4_gone {rows : List Row} {headers : List String} {p : String × Nat}
    (h : pick4 rows headers = some p) : p.1 ∉ avail4 rows headers := by
  unfold avail4
  rw [h]
  exact not_mem_availAfter_self (avail3_nodup rows headers)

/-- The transactions column (pick or density fallback) lies in the pool left
after the tips stage. -/
lemma txnColumn_mem {rows : List Row} {headers : List String} {c : String}
    (h : txnColumn rows headers = some c) : c ∈ avail4 rows headers := by
  unfold txnColumn at h
  rcases h5 : pick5 rows headers with _ | ⟨q, w⟩
  · rw [h5] at h
    exact avail5_sub rows headers (List.mem_of_find?_eq_some h)
  · rw [h5] at h
    dsimp only at h
    by_cases he : q.data.isEmpty = true
    · rw [if_pos he] at h
      rcases hf : (avail5 rows headers).find? (fun c => rows.length < 3 * density rows c)
        with _ | f
      · rw [hf] at h
        injection h with h'
        rw [← h']
        exact pick5_mem h5
      · rw [hf] at h
        injection h with h'
        rw [← h']
        exact avail5_sub rows headers (List.mem_of_find?_eq_some hf)
    · rw [if_neg he] at h
      injection h with h'
      rw [← h']
      exact pick5_mem h5

/-- The Column Selection as a function of Metric Keys. -/
def metricSel (s : Selections) : MetricKey → Option String
  | .gross => s.gross
  | .net => s.net
  | .discounts => s.discounts
  | .tips => s.tips
  | .transactions => s.transactions

/-- C2 amended: no column is selected for two different Metric Keys (each
stage's chosen column is erased from the pool the later stages draw from).
The date column, however, is not excluded from metric selection (see the
counterexample). -/
theorem detectMetricColumns_distinct (rows : List Row) (headers : List String) :
    ∀ k1 k2 : MetricKey, k1 ≠ k2 → ∀ c : String,
      metricSel (detectMetricColumns rows headers) k1 = some c →
      metricSel (detectMetricColumns rows headers) k2 ≠ some c := by
  have sub21 := avail2_sub rows headers
  have sub32 := avail3_sub rows headers
  have sub43 := avail4_sub rows headers
  -- c ∈ pool after stage i rules out c being stage i's pick; these five
  -- helpers place each later selection inside the pool after each earlier one.
  have mem2 : ∀ {c}, (detectMetricColumns rows headers).net = some c →
      c ∈ avail1 rows headers := by
    intro c h
    simp only [detectMetricColumns] at h
    rcases Option.map_eq_some'.mp h with ⟨p, hp, rfl⟩
    exact pick2_mem hp
  have mem3 : ∀ {c}, (detectMetricColumns rows headers).discounts = some c →
      c ∈ avail2 rows headers := by
    intro c h
    simp only [detectMetricColumns] at h
    rcases Option.map_eq_some'.mp h with ⟨p, hp, rfl⟩
    exact pick3_mem hp
  have mem4 : ∀ {c}, (detectMetricColumns rows headers).tips = some c →
      c ∈ avail3 rows headers := by
    intro c h
    simp only [detectMetricColumns] at h
    rcases Option.map_eq_some'.mp h with ⟨p, hp, rfl⟩
    exact pick4_mem hp
  have mem5 : ∀ {c}, (detectMetricColumns rows headers).transactions = some c →
      c ∈ avail4 rows headers := by
    intro c h
    simp only [detectMetricColumns] at h
    exact txnColumn_mem h
  have gone1 : ∀ {c}, (detectMetricColumns rows headers).gross = some c →
      c ∉ avail1 rows headers := by
    intro c h
    simp only [detectMetricColumns] at h
    rcases Option.map_eq_some'.mp h with ⟨p, hp, rfl⟩
    exact pick1_gone hp
  have gone2 : ∀ {c}, (detectMetricColumns rows headers).net = some c →
      c ∉ avail2 rows headers := by
    intro c h
    simp only [detectMetricColumns] at h
    rcases Option.map_eq_some'.mp h with ⟨p, hp, rfl⟩
    exact pick2_gone hp
  have gone3 : ∀ {c}, (detectMetricColumns rows headers).discounts = some c →
      c ∉ avail3 rows headers := by
    intro c h
    simp only [detectMetricColumns] at h
    rcases Option.map_eq_some'.mp h with ⟨p, hp, rfl⟩
    exact pick3_gone hp
  have gone4 : ∀ {c}, (detectMetricColumns rows headers).tips = some c →
      c ∉ avail4 rows headers := by
    intro c h
    simp only [detectMetricColumns] at h
    rcases Option.map_eq_some'.mp h with ⟨p, hp, rfl⟩
    exact pick4_gone hp
  intro k1 k2 hne c h1 h2
  cases k1 <;> cases k2 <;> simp only [metricSel] at h1 h2 <;>
    first
      | exact hne rfl
      | exact gone1 h1 (mem2 h2)
      | exact gone1 h2 (mem2 h1)
      | exact gone1 h1 (sub21 (mem3 h2))
      | exact gone1 h2 (sub21 (mem3 h1))
      | exact gone1 h1 (sub21 (sub32 (mem4 h2)))
      | exact gone1 h2 (sub21 (sub32 (mem4 h1)))
      | exact gone1 h1 (sub21 (sub32 (sub43 (mem5 h2))))
      | exact gone1 h2 (sub21 (sub32 (sub43 (mem5 h1))))
      | exact gone2 h1 (mem3 h2)
      | exact gone2 h2 (mem3 h1)
      | exact gone2 h1 (sub32 (mem4 h2))
      | exact gone2 h2 (sub32 (mem4 h1))
      | exact gone2 h1 (sub32 (sub43 (mem5 h2)))
      | exact gone2 h2 (sub32 (sub43 (mem5 h1)))
      | exact gone3 h1 (mem4 h2)
      | exact gone3 h2 (mem4 h1)
      | exact gone3 h1 (sub43 (mem5 h2))
      | exact gone3 h2 (sub43 (mem5 h1))
      | exact gone4 h1 (mem5 h2)
      | exact gone4 h2 (mem5 h1)

/-- C2 amended witness: on the scenario-A record set all five metric columns
are selected and pairwise distinct; in particular `gross` and `net` differ. -/
theorem detectMetricColumns_distinct_witness :
    metricSel (detectMetricColumns rowsSquare (headersOf rowsSquare)) .gross =
      some "Total Sales" ∧
    metricSel (detectMetricColumns rowsSquare (headersOf rowsSquare)) .net ≠
      some "Total Sales" := by
  have h1 : metricSel (detectMetricColumns rowsSquare (headersOf rowsSquare)) .gross =
      some "Total Sales" := by with_unfolding_all rfl
  exact ⟨h1, detectMetricColumns_distinct rowsSquare (headersOf rowsSquare) .gross .net
    (by simp) "Total Sales" h1⟩

/-! ## Error characterization of `aggregate` -/

lemma missingOf_cases (sel : Selections) :
    missingOf sel = [] ∨ missingOf sel = ["gross"] ∨ missingOf sel = ["net"] ∨
      missingOf sel = ["gross", "net"] := by
  unfold missingOf
  split_ifs <;> simp

/-- Complete case analysis of `aggregate`'s control flow (`!dateColumn` and
`!metricColumns[m]` test JS truthiness: a selection is falsy when it is absent
or the empty name). -/
lemma aggregate_cases (rows : List Row) :
    (rows = [] ∧ aggregate rows = .error msgEmpty) ∨
    (rows ≠ [] ∧ truthy (detectDateColumn rows (headersOf rows)) = false ∧
      aggregate rows = .error msgNoDate) ∨
    (rows ≠ [] ∧ (∃ dc, detectDateColumn rows (headersOf rows) = some dc ∧
        dc.data.isEmpty = false) ∧
      missingOf (detectMetricColumns rows (headersOf rows)) ≠ [] ∧
      aggregate rows = .error (msgMissing (missingOf (detectMetricColumns rows (headersOf rows))))) ∨
    (rows ≠ [] ∧ (∃ dc, detectDateColumn rows (headersOf rows) = some dc ∧
      dc.data.isEmpty = false ∧
      missingOf (detectMetricColumns rows (headersOf rows)) = [] ∧
      sortDaily (buildBucket rows dc (detectMetricColumns rows (headersOf rows))) = []) ∧
      aggregate rows = .error msgNoRows) ∨
    (rows ≠ [] ∧ (∃ dc d0 rest, detectDateColumn rows (headersOf rows) = some dc ∧
      dc.data.isEmpty = false ∧
      missingOf (detectMetricColumns rows (headersOf rows)) = [] ∧
      sortDaily (buildBucket rows dc (detectMetricColumns rows (headersOf rows))) = d0 :: rest ∧
      aggregate rows = .ok (mkResult d0 rest))) := by
  rcases hr : rows with _ | ⟨r0, rows'⟩
  · left
    exact ⟨rfl, rfl⟩
  · rw [← hr]
    have hne : rows ≠ [] := by rw [hr]; simp
    have hagg : aggregate rows =
        match detectDateColumn rows (headersOf rows) with
        | none => .error msgNoDate
        | some dateColumn =>
          if dateColumn.data.isEmpty then .error msgNoDate
          else
            match missingOf (detectMetricColumns rows (headersOf rows)) with
            | _ :: _ => .error (msgMissing (missingOf (detectMetricColumns rows (headersOf rows))))
            | [] =>
              match sortDaily (buildBucket rows dateColumn (detectMetricColumns rows (headersOf rows))) with
              | [] => .error msgNoRows
              | d0 :: rest => .ok (mkResult d0 rest) := by
      rw [hr]
      rfl
    rcases hdc : detectDateColumn rows (headersOf rows) with _ | dc
    · right; left
      rw [hdc] at hagg
      exact ⟨hne, rfl, hagg⟩
    · rw [hdc] at hagg
      dsimp only at hagg
      by_cases hemp : dc.data.isEmpty = true
      · right; left
        rw [if_pos hemp] at hagg
        exact ⟨hne, by simp [truthy, hemp], hagg⟩
      · rw [if_neg hemp] at hagg
        have hempf : dc.data.isEmpty = false := Bool.eq_false_iff.mpr hemp
        rcases hmiss : missingOf (detectMetricColumns rows (headersOf rows)) with _ | ⟨m, ms⟩
        · rw [hmiss] at hagg
          dsimp only at hagg
          rcases hsort : sortDaily (buildBucket rows dc (detectMetricColumns rows (headersOf rows)))
            with _ | ⟨d0, rest⟩
          · right; right; right; left
            rw [hsort] at hagg
            exact ⟨hne, ⟨dc, rfl, hempf, rfl, hsort⟩, hagg⟩
          · right; right; right; right
            rw [hsort] at hagg
            exact ⟨hne, dc, d0, rest, rfl, hempf, rfl, hsort, hagg⟩
        · right; right; left
          rw [hmiss] at hagg
          dsimp only at hagg
          exact ⟨hne, ⟨dc, rfl, hempf⟩, by simp, hagg⟩

lemma msgMissing_ne {sel : Selections} (hne : missingOf sel ≠ []) :
    msgMissing (missingOf sel) ≠ msgEmpty ∧ msgMissing (missingOf sel) ≠ msgNoDate ∧
    msgMissing (missingOf sel) ≠ msgNoRows := by
  rcases missingOf_cases sel with h | h | h | h
  · exact absurd h hne
  · rw [h]; exact ⟨by decide, by decide, by decide⟩
  · rw [h]; exact ⟨by decide, by decide, by decide⟩
  · rw [h]; exact ⟨by decide, by decide, by decide⟩

/-- C3: `aggregate` reports an error exactly when the record set is empty, no
date column is detected (the JS check `!dateColumn` also rejects a detected
column named `""`), `gross`/`net` metric columns are missing under the same
truthiness test, or zero records survive date resolution; each condition
surfaces its own distinct message (the missing-metrics message names the
missing keys), and when none of the conditions holds the run succeeds — every
other anomaly is absorbed. -/
theorem aggregate_error_spec (rows : List Row) :
    ((∃ m, aggregate rows = .error m) ↔
      (rows = [] ∨ truthy (detectDateColumn rows (headersOf rows)) = false ∨
        missingOf (detectMetricColumns rows (headersOf rows)) ≠ [] ∨
        (∃ dc, detectDateColumn rows (headersOf rows) = some dc ∧
          sortDaily (buildBucket rows dc (detectMetricColumns rows (headersOf rows))) = []))) ∧
    (aggregate rows = .error msgEmpty ↔ rows = []) ∧
    (aggregate rows = .error msgNoDate ↔
      (rows ≠ [] ∧ truthy (detectDateColumn rows (headersOf rows)) = false)) ∧
    (aggregate rows = .error (msgMissing (missingOf (detectMetricColumns rows (headersOf rows)))) ↔
      (rows ≠ [] ∧ truthy (detectDateColumn rows (headersOf rows)) = true ∧
        missingOf (detectMetricColumns rows (headersOf rows)) ≠ [])) ∧
    (aggregate rows = .error msgNoRows ↔
      (rows ≠ [] ∧ ∃ dc, detectDateColumn rows (headersOf rows) = some dc ∧
        dc.data.isEmpty = false ∧
        missingOf (detectMetricColumns rows (headersOf rows)) = [] ∧
        sortDaily (buildBucket rows dc (detectMetricColumns rows (headersOf rows))) = [])) := by
  rcases aggregate_cases rows with ⟨h1, h2⟩ | ⟨h1, h2, h3⟩ | ⟨h1, h2, h3, h4⟩ |
    ⟨h1, ⟨dc, hdc, hemp, hm, hs⟩, h3⟩ | ⟨h1, dc, d0, rest, hdc, hemp, hm, hs, hok⟩
  -- empty input
  · subst h1
    refine ⟨⟨fun _ => Or.inl rfl, fun _ => ⟨msgEmpty, h2⟩⟩, ⟨fun _ => rfl, fun _ => h2⟩,
      ⟨?_, ?_⟩, ⟨?_, ?_⟩, ⟨?_, ?_⟩⟩
    · intro hc; rw [h2] at hc; injection hc with hc'; exact absurd hc' (by decide)
    · rintro ⟨hne, _⟩; exact absurd rfl hne
    · intro hc
      rw [h2] at hc
      injection hc with hc'
      by_cases hm : missingOf (detectMetricColumns [] (headersOf [])) = []
      · rw [hm] at hc'
        exact absurd hc' (by decide)
      · exact absurd hc' (Ne.symm (msgMissing_ne hm).1)
    · rintro ⟨hne, _⟩; exact absurd rfl hne
    · intro hc; rw [h2] at hc; injection hc with hc'; exact absurd hc' (by decide)
    · rintro ⟨hne, _⟩; exact absurd rfl hne
  -- falsy date column (absent or empty-named)
  · refine ⟨⟨fun _ => Or.inr (Or.inl h2), fun _ => ⟨msgNoDate, h3⟩⟩, ⟨?_, ?_⟩,
      ⟨fun _ => ⟨h1, h2⟩, fun _ => h3⟩, ⟨?_, ?_⟩, ⟨?_, ?_⟩⟩
    · intro hc; rw [h3] at hc; injection hc with hc'; exact absurd hc' (by decide)
    · intro hc; exact absurd hc h1
    · intro hc
      rw [h3] at hc
      injection hc with hc'
      by_cases hm : missingOf (detectMetricColumns rows (headersOf rows)) = []
      · rw [hm] at hc'
        exact absurd hc' (by decide)
      · exact absurd hc' (Ne.symm (msgMissing_ne hm).2.1)
    · rintro ⟨_, htr, _⟩; rw [h2] at htr; cases htr
    · intro hc; rw [h3] at hc; injection hc with hc'; exact absurd hc' (by decide)
    · rintro ⟨_, dc, hdc, hdcne, _⟩
      rw [hdc] at h2
      simp [truthy, hdcne] at h2
  -- missing gross/net
  · obtain ⟨dc, hdc, hemp⟩ := h2
    obtain ⟨hne1, hne2, hne3⟩ := msgMissing_ne h3
    refine ⟨⟨fun _ => Or.inr (Or.inr (Or.inl h3)), fun _ => ⟨_, h4⟩⟩, ⟨?_, ?_⟩, ⟨?_, ?_⟩,
      ⟨fun _ => ⟨h1, by rw [hdc]; simp [truthy, hemp], h3⟩, fun _ => h4⟩, ⟨?_, ?_⟩⟩
    · intro hc; rw [h4] at hc; injection hc with hc'; exact absurd hc' hne1
    · intro hc; exact absurd hc h1
    · intro hc; rw [h4] at hc; injection hc with hc'; exact absurd hc' hne2
    · rintro ⟨_, htr⟩; rw [hdc] at htr; simp [truthy, hemp] at htr
    · intro hc; rw [h4] at hc; injection hc with hc'; exact absurd hc' hne3
    · rintro ⟨_, dc2, _, _, hm2, _⟩; exact absurd hm2 h3
  -- zero surviving records
  · refine ⟨⟨fun _ => Or.inr (Or.inr (Or.inr ⟨dc, hdc, hs⟩)), fun _ => ⟨msgNoRows, h3⟩⟩,
      ⟨?_, ?_⟩, ⟨?_, ?_⟩, ⟨?_, ?_⟩, ⟨fun _ => ⟨h1, dc, hdc, hemp, hm, hs⟩, fun _ => h3⟩⟩
    · intro hc; rw [h3] at hc; injection hc with hc'; exact absurd hc' (by decide)
    · intro hc; exact absurd hc h1
    · intro hc; rw [h3] at hc; injection hc with hc'; exact absurd hc' (by decide)
    · rintro ⟨_, htr⟩; rw [hdc] at htr; simp [truthy, hemp] at htr
    · intro hc
      rw [h3] at hc
      injection hc with hc'
      rw [hm] at hc'
      exact absurd hc' (by decide)
    · rintro ⟨_, _, hmne⟩; exact absurd hm hmne
  -- success
  · have hnoerr : ∀ m, aggregate rows ≠ .error m := by
      intro m hc
      rw [hok] at hc
      cases hc
    refine ⟨⟨?_, ?_⟩, ⟨?_, ?_⟩, ⟨?_, ?_⟩, ⟨?_, ?_⟩, ⟨?_, ?_⟩⟩
    · rintro ⟨m, hc⟩; exact absurd hc (hnoerr m)
    · rintro (hc | hc | hc | ⟨dc2, hdc2, hs2⟩)
      · exact absurd hc h1
      · rw [hdc] at hc; simp [truthy, hemp] at hc
      · exact absurd hm hc
      · rw [hdc] at hdc2
        injection hdc2 with hdc3
        subst hdc3
        rw [hs] at hs2
        cases hs2
    · intro hc; exact absurd hc (hnoerr _)
    · intro hc; exact absurd hc h1
    · intro hc; exact absurd hc (hnoerr _)
    · rintro ⟨_, htr⟩; rw [hdc] at htr; simp [truthy, hemp] at htr
    · intro hc; exact absurd hc (hnoerr _)
    · rintro ⟨_, _, hmne⟩; exact absurd hm hmne
    · intro hc; exact absurd hc (hnoerr _)
    · rintro ⟨_, dc2, hdc2, _, _, hs2⟩
      rw [hdc] at hdc2
      injection hdc2 with hdc3
      subst hdc3
      rw [hs] at hs2
      cases hs2

/-- C3 witness: the characterization applied to the empty record set, and to a
record set whose `net` selection is the empty-named column — the falsy case
`!metricColumns[m]` covers beyond plain absence. -/
theorem aggregate_error_spec_witness :
    aggregate ([] : List Row) = .error msgEmpty ∧
    aggregate rowsEmptyCol =
      .error (msgMissing (missingOf (detectMetricColumns rowsEmptyCol (headersOf rowsEmptyCol)))) ∧
    msgMissing (missingOf (detectMetricColumns rowsEmptyCol (headersOf rowsEmptyCol))) =
      "Missing expected numeric columns: net" := by
  have hml : missingOf (detectMetricColumns rowsEmptyCol (headersOf rowsEmptyCol)) = ["net"] := by
    with_unfolding_all rfl
  refine ⟨((aggregate_error_spec []).2.1).mpr rfl, ?_, ?_⟩
  · refine ((aggregate_error_spec rowsEmptyCol).2.2.2.1).mpr ⟨by simp [rowsEmptyCol], ?_, ?_⟩
    · with_unfolding_all rfl
    · rw [hml]
      simp
  · rw [hml]
    with_unfolding_all rfl

/-- C9: whenever `detectDateColumn` returns a column, some record's cell in
that column resolves, so the `No usable dated rows found after parsing.` exit
is unreachable: `aggregate` either fails one of the three earlier checks or
returns a nonempty daily sequence. -/
theorem no_usable_rows_unreachable (rows : List Row) :
    (∀ c, detectDateColumn rows (headersOf rows) = some c →
      ∃ r ∈ rows, (tryParseDate (lookupCell r c)).isSome = true) ∧
    aggregate rows ≠ .error msgNoRows ∧
    (∀ out, aggregate rows = .ok out → out.daily ≠ []) := by
  refine ⟨fun c hc => detectDateColumn_witness hc, ?_, ?_⟩
  · intro hc
    rcases aggregate_cases rows with ⟨_, h2⟩ | ⟨_, _, h3⟩ | ⟨_, _, h3, h4⟩ |
      ⟨_, ⟨dc, hdc, _, _, hs⟩, _⟩ | ⟨_, dc, d0, rest, _, _, _, _, hok⟩
    · rw [h2] at hc; injection hc with hc'; exact absurd hc' (by decide)
    · rw [h3] at hc; injection hc with hc'; exact absurd hc' (by decide)
    · rw [h4] at hc
      injection hc with hc'
      exact absurd hc' (msgMissing_ne h3).2.2
    · exact absurd hs (sortDaily_ne_nil (buildBucket_ne_nil (detectDateColumn_witness hdc)))
    · rw [hok] at hc; cases hc
  · intro out hout
    rcases aggregate_ok_elim hout with ⟨dc, d0, rest, _, _, _, _, _, rfl⟩
    rw [mkResult_daily]
    simp

/-- C9 witness: the one-record CSV yields a nonempty daily sequence. -/
theorem no_usable_rows_unreachable_witness : (aggOutOf rowsDGN).daily ≠ [] :=
  (no_usable_rows_unreachable rowsDGN).2.2 (aggOutOf rowsDGN) (by with_unfolding_all rfl)

/-! ## Totals and ordering of the daily sequence -/

lemma sumDaily_fields : ∀ (l : List DailyAggregate) (acc : Metrics),
    l.foldl (fun acc cur =>
      { gross := acc.gross + cur.gross
        net := acc.net + cur.net
        discounts := acc.discounts + cur.discounts
        tips := acc.tips + cur.tips
        transactions := acc.transactions + cur.transactions }) acc =
      ⟨acc.gross + (l.map DailyAggregate.gross).sum,
       acc.net + (l.map DailyAggregate.net).sum,
       acc.discounts + (l.map DailyAggregate.discounts).sum,
       acc.tips + (l.map DailyAggregate.tips).sum,
       acc.transactions + (l.map DailyAggregate.transactions).sum⟩ := by
  intro l
  induction l with
  | nil => intro acc; simp
  | cons c cs ih =>
    intro acc
    rw [List.foldl_cons, ih]
    simp [Metrics.mk.injEq, add_assoc]

lemma sumDaily_eq (l : List DailyAggregate) :
    sumDaily l = ⟨(l.map DailyAggregate.gross).sum, (l.map DailyAggregate.net).sum,
      (l.map DailyAggregate.discounts).sum, (l.map DailyAggregate.tips).sum,
      (l.map DailyAggregate.transactions).sum⟩ := by
  unfold sumDaily
  rw [sumDaily_fields]
  simp

lemma aggregate_daily_strict {rows : List Row} {dc : String} {d0 : DailyAggregate}
    {rest : List DailyAggregate}
    (hsort : sortDaily (buildBucket rows dc (detectMetricColumns rows (headersOf rows))) =
      d0 :: rest) :
    (d0 :: rest).Pairwise (fun a b => charListLt a.dateISO.data b.dateISO.data = true) := by
  have hsorted := sortDaily_sorted (buildBucket rows dc (detectMetricColumns rows (headersOf rows)))
  rw [hsort] at hsorted
  have hperm := sortDaily_perm (buildBucket rows dc (detectMetricColumns rows (headersOf rows)))
  rw [hsort] at hperm
  have hnodup : ((d0 :: rest).map DailyAggregate.dateISO).Nodup :=
    ((hperm.map DailyAggregate.dateISO).nodup_iff).mpr buildBucket_nodup
  exact sorted_strict hsorted hnodup

/-- C8: for every successful run, the daily sequence is strictly ascending by
ISO date string (hence one element per distinct resolved date), and each
total is exactly the element-wise sum of that metric over the sequence. -/
theorem daily_sorted_totals {rows : List Row} {out : AggResult}
    (h : aggregate rows = .ok out) :
    out.daily.Pairwise (fun a b => charListLt a.dateISO.data b.dateISO.data = true) ∧
    out.summary.totals.gross = (out.daily.map DailyAggregate.gross).sum ∧
    out.summary.totals.net = (out.daily.map DailyAggregate.net).sum ∧
    out.summary.totals.discounts = (out.daily.map DailyAggregate.discounts).sum ∧
    out.summary.totals.tips = (out.daily.map DailyAggregate.tips).sum ∧
    out.summary.totals.transactions = (out.daily.map DailyAggregate.transactions).sum := by
  rcases aggregate_ok_elim h with ⟨dc, d0, rest, _, _, _, _, hsort, rfl⟩
  rw [mkResult_daily, mkResult_totals, sumDaily_eq]
  exact ⟨aggregate_daily_strict hsort, rfl, rfl, rfl, rfl, rfl⟩

/-- C8 witness: scenario A's totals equal the element-wise daily sums. -/
theorem daily_sorted_totals_witness :
    (aggOutOf rowsSquare).summary.totals.gross =
      ((aggOutOf rowsSquare).daily.map DailyAggregate.gross).sum :=
  (daily_sorted_totals
    (show aggregate rowsSquare = .ok (aggOutOf rowsSquare) by with_unfolding_all rfl)).2.1

/-- C4: for every successful run, `operatingDays` is the number of Daily
Aggregates, `calendarDays` is the whole-day span between the first and last
date plus one, `calendarDays ≥ operatingDays ≥ 1`, and consequently both
per-day divisors are nonzero rationals. -/
theorem day_count_invariant {rows : List Row} {out : AggResult}
    (h : aggregate rows = .ok out) :
    1 ≤ out.summary.operatingDays ∧
    (out.summary.operatingDays : Int) ≤ out.summary.calendarDays ∧
    out.summary.operatingDays = out.daily.length ∧
    (∃ dFirst dLast, out.daily.head? = some dFirst ∧ out.daily.getLast? = some dLast ∧
      out.summary.calendarDays =
        isoDayNumber dLast.dateISO - isoDayNumber dFirst.dateISO + 1) ∧
    (out.summary.operatingDays : ℚ) ≠ 0 ∧ (out.summary.calendarDays : ℚ) ≠ 0 := by
  rcases aggregate_ok_elim h with ⟨dc, d0, rest, _, _, _, _, hsort, rfl⟩
  have hperm := sortDaily_perm (buildBucket rows dc (detectMetricColumns rows (headersOf rows)))
  rw [hsort] at hperm
  have hvalid : ∀ e ∈ (d0 :: rest), ∃ x, validYmd x = true ∧ e.dateISO = toISO x :=
    fun e he => buildBucket_valid e (hperm.mem_iff.mp he)
  have hstrict := aggregate_daily_strict hsort
  have hday : (d0 :: rest).Pairwise
      (fun a b => isoDayNumber a.dateISO < isoDayNumber b.dateISO) := by
    refine List.Pairwise.imp_of_mem ?_ hstrict
    intro a b ha hb hab
    rcases hvalid a ha with ⟨x, hx, hxe⟩
    rcases hvalid b hb with ⟨x', hx', hxe'⟩
    have hchars : charListLt (toISOChars x) (toISOChars x') = true := by
      have e1 : a.dateISO.data = toISOChars x := by rw [hxe]; rfl
      have e2 : b.dateISO.data = toISOChars x' := by rw [hxe']; rfl
      rw [e1, e2] at hab
      exact hab
    have hlt := ymdLt_of_toISOChars_lt hx hx' hchars
    have hmono := dayNumber_strictMono hx hx' hlt
    rw [hxe, hxe', isoDayNumber_toISO hx, isoDayNumber_toISO hx']
    exact hmono
  have hgap := head_last_gap d0 rest hday
  have hcal := mkResult_calendarDays_eq d0 rest
  have hop : (mkResult d0 rest).summary.operatingDays = rest.length + 1 := by
    rw [mkResult_operatingDays]
    simp
  refine ⟨by omega, ?_, ?_, ?_, ?_, ?_⟩
  · rw [hop, hcal]
    push_cast
    omega
  · rw [mkResult_daily, hop]
    simp
  · refine ⟨d0, (d0 :: rest).getLast (List.cons_ne_nil d0 rest), ?_, ?_, ?_⟩
    · rw [mkResult_daily]
      rfl
    · rw [mkResult_daily]
      exact List.getLast?_eq_getLast_of_ne_nil _
    · exact hcal
  · rw [hop]
    push_cast
    positivity
  · rw [hcal]
    have : (0 : Int) < isoDayNumber (((d0 :: rest).getLast
        (List.cons_ne_nil d0 rest)).dateISO) - isoDayNumber d0.dateISO + 1 := by omega
    intro hc
    rw [show ((isoDayNumber (((d0 :: rest).getLast (List.cons_ne_nil d0 rest)).dateISO) -
      isoDayNumber d0.dateISO + 1 : Int) : ℚ) = 0 ↔ (isoDayNumber (((d0 :: rest).getLast
      (List.cons_ne_nil d0 rest)).dateISO) - isoDayNumber d0.dateISO + 1 : Int) = 0 from
      Int.cast_eq_zero] at hc
    omega

/-- C4 witness: a successful one-record run has one operating day and one
calendar day. -/
theorem day_count_invariant_witness :
    1 ≤ (aggOutOf rowsDGN).summary.operatingDays ∧
    ((aggOutOf rowsDGN).summary.operatingDays : Int) ≤
      (aggOutOf rowsDGN).summary.calendarDays := by
  have h := day_count_invariant
    (show aggregate rowsDGN = .ok (aggOutOf rowsDGN) by with_unfolding_all rfl)
  exact ⟨h.1, h.2.1⟩

end SalesSnapshot
